import Mathlib

/-!
Verification of the containers_fetcher data-access core.

JavaScript strings are modelled as lists of UTF-16 code units
(`List Nat`), which matches the JS string data model exactly (including
strings holding lone surrogates).  Byte buffers are modelled as
`List Nat` with entries in 0..255.  External library functions
(Node's zlib) are modelled as oracle parameters, since their code is
not part of this repository.
-/

namespace CF

/-- A JavaScript string: a list of UTF-16 code units. -/
abbrev JsStr := List Nat

/-- Is a byte a UTF-8 continuation byte (10xxxxxx)? -/
def isUtf8Cont (c : Nat) : Bool := decide (0x80 ≤ c ∧ c ≤ 0xBF)

/-- Allowed range for the first continuation byte, which depends on the
lead byte (WHATWG UTF-8 decoding, as implemented by Node's utf8 decode). -/
def utf8FirstContOk (b c : Nat) : Bool :=
  if b = 0xE0 then decide (0xA0 ≤ c ∧ c ≤ 0xBF)
  else if b = 0xED then decide (0x80 ≤ c ∧ c ≤ 0x9F)
  else if b = 0xF0 then decide (0x90 ≤ c ∧ c ≤ 0xBF)
  else if b = 0xF4 then decide (0x80 ≤ c ∧ c ≤ 0x8F)
  else isUtf8Cont c

/-- Split a code point above 0xFFFF into its UTF-16 surrogate pair. -/
def surrogatePair (cp : Nat) : List Nat :=
  [0xD800 + (cp - 0x10000) / 0x400, 0xDC00 + (cp - 0x10000) % 0x400]

/-- One UTF-8 decoding step: given a lead byte and the remaining bytes,
return the emitted UTF-16 code units and how many of the remaining bytes
were consumed beyond the lead byte (WHATWG decoding: a malformed
sequence emits U+FFFD and resumes at the byte that failed). -/
def utf8Step (b : Nat) (rest : List Nat) : List Nat × Nat :=
  if b < 0x80 then ([b], 0)
  else if 0xC2 ≤ b ∧ b ≤ 0xDF then
    match rest with
    | [] => ([0xFFFD], 0)
    | c1 :: _ =>
      if isUtf8Cont c1 then ([(b - 0xC0) * 0x40 + (c1 - 0x80)], 1)
      else ([0xFFFD], 0)
  else if 0xE0 ≤ b ∧ b ≤ 0xEF then
    match rest with
    | [] => ([0xFFFD], 0)
    | [c1] => if utf8FirstContOk b c1 then ([0xFFFD], 1) else ([0xFFFD], 0)
    | c1 :: c2 :: _ =>
      if utf8FirstContOk b c1 then
        if isUtf8Cont c2 then
          ([(b - 0xE0) * 0x1000 + (c1 - 0x80) * 0x40 + (c2 - 0x80)], 2)
        else ([0xFFFD], 1)
      else ([0xFFFD], 0)
  else if 0xF0 ≤ b ∧ b ≤ 0xF4 then
    match rest with
    | [] => ([0xFFFD], 0)
    | [c1] => if utf8FirstContOk b c1 then ([0xFFFD], 1) else ([0xFFFD], 0)
    | [c1, c2] =>
      if utf8FirstContOk b c1 then
        if isUtf8Cont c2 then ([0xFFFD], 2) else ([0xFFFD], 1)
      else ([0xFFFD], 0)
    | c1 :: c2 :: c3 :: _ =>
      if utf8FirstContOk b c1 then
        if isUtf8Cont c2 then
          if isUtf8Cont c3 then
            (surrogatePair
              ((b - 0xF0) * 0x40000 + (c1 - 0x80) * 0x1000 +
                (c2 - 0x80) * 0x40 + (c3 - 0x80)), 3)
          else ([0xFFFD], 2)
        else ([0xFFFD], 1)
      else ([0xFFFD], 0)
  else ([0xFFFD], 0)

/-- Decode a byte list as UTF-8 into UTF-16 code units, replacing
malformed sequences with U+FFFD (Node `buffer.toString("utf8")`,
WHATWG decoding). -/
def utf8Decode : List Nat → List Nat
  | [] => []
  | b :: rest =>
    let s := utf8Step b rest
    s.1 ++ utf8Decode (rest.drop s.2)
termination_by l => l.length
decreasing_by simp only [List.length_cons, List.length_drop]; omega

/-- Is a UTF-16 code unit a high surrogate? -/
def isHighSurrogate (u : Nat) : Bool := decide (0xD800 ≤ u ∧ u ≤ 0xDBFF)

/-- Is a UTF-16 code unit a low surrogate? -/
def isLowSurrogate (u : Nat) : Bool := decide (0xDC00 ≤ u ∧ u ≤ 0xDFFF)

/-- Encode one scalar code point as UTF-8 bytes. -/
def utf8EncodeScalar (cp : Nat) : List Nat :=
  if cp < 0x80 then [cp]
  else if cp < 0x800 then [0xC0 + cp / 0x40, 0x80 + cp % 0x40]
  else if cp < 0x10000 then
    [0xE0 + cp / 0x1000, 0x80 + cp / 0x40 % 0x40, 0x80 + cp % 0x40]
  else
    [0xF0 + cp / 0x40000, 0x80 + cp / 0x1000 % 0x40,
      0x80 + cp / 0x40 % 0x40, 0x80 + cp % 0x40]

/-- One UTF-8 encoding step: emitted bytes and how many further code
units were consumed beyond the first. -/
def utf8EncStep (u : Nat) (rest : List Nat) : List Nat × Nat :=
  if isHighSurrogate u then
    match rest with
    | [] => (utf8EncodeScalar 0xFFFD, 0)
    | v :: _ =>
      if isLowSurrogate v then
        (utf8EncodeScalar (0x10000 + (u - 0xD800) * 0x400 + (v - 0xDC00)), 1)
      else (utf8EncodeScalar 0xFFFD, 0)
  else if isLowSurrogate u then (utf8EncodeScalar 0xFFFD, 0)
  else (utf8EncodeScalar u, 0)

/-- Encode UTF-16 code units as UTF-8 bytes, encoding lone surrogates as
U+FFFD (Node `Buffer.from(str, "utf8")`). -/
def utf8Encode : List Nat → List Nat
  | [] => []
  | u :: rest =>
    let s := utf8EncStep u rest
    s.1 ++ utf8Encode (rest.drop s.2)
termination_by l => l.length
decreasing_by simp only [List.length_cons, List.length_drop]; omega

/-- Decode bytes as UTF-16LE code units; a trailing odd byte is dropped
(Node `buffer.toString("utf16le")`). -/
def utf16leUnits : List Nat → List Nat
  | lo :: hi :: rest => (lo + 0x100 * hi) :: utf16leUnits rest
  | _ => []

/-- Byte-swap consecutive pairs.  Mirrors the manual swap loops of
`bufferToUtf8OrBase64`: for an odd-length input the final lone byte
produces a single `0` byte (the out-of-range high-byte store on a JS
`Buffer` is silently dropped, while the in-range low-byte store writes
the default `0`). -/
def swapPairs : List Nat → List Nat
  | h :: l :: rest => l :: h :: swapPairs rest
  | [_] => [0]
  | [] => []

/-- Count zero bytes at even and odd positions; the flag says whether the
current position is even. -/
def zeroCountsAux : List Nat → Bool → Nat × Nat
  | [], _ => (0, 0)
  | b :: rest, isEven =>
    let p := zeroCountsAux rest (!isEven)
    if b = 0 then (if isEven then (p.1 + 1, p.2) else (p.1, p.2 + 1)) else p

/-- The base64 alphabet as ASCII codes. -/
def base64Table : List Nat :=
  (List.range 26).map (· + 65) ++ (List.range 26).map (· + 97) ++
    (List.range 10).map (· + 48) ++ [43, 47]

/-- Look up a 6-bit value in the base64 alphabet. -/
def base64Char (n : Nat) : Nat := base64Table.getD n 0

/-- Base64-encode bytes into ASCII code units (Node
`buffer.toString("base64")`). -/
def base64Units : List Nat → List Nat
  | [] => []
  | [a] => [base64Char (a / 4), base64Char (a % 4 * 16), 61, 61]
  | [a, b] =>
    [base64Char (a / 4), base64Char (a % 4 * 16 + b / 16), base64Char (b % 16 * 4), 61]
  | a :: b :: c :: rest =>
    base64Char (a / 4) :: base64Char (a % 4 * 16 + b / 16) ::
      base64Char (b % 16 * 4 + c / 64) :: base64Char (c % 64) :: base64Units rest

/-- Does the list start with the given pattern? -/
def listStartsWith : List Nat → List Nat → Bool
  | _, [] => true
  | [], _ :: _ => false
  | a :: as, b :: bs => if a = b then listStartsWith as bs else false

/-- First index at which the pattern occurs as a sublist
(JS `String.prototype.indexOf`), counting from the given offset. -/
def subIndexFrom : List Nat → List Nat → Nat → Option Nat
  | hay, needle, i =>
    if listStartsWith hay needle then some i
    else
      match hay with
      | [] => none
      | _ :: t => subIndexFrom t needle (i + 1)

/-- First index at which the pattern occurs as a sublist, or none. -/
def subIndexOf (hay needle : List Nat) : Option Nat := subIndexFrom hay needle 0

/-- The code units of the string that is searched for by
`cleanedUtf8.indexOf("<?xml")`. -/
def xmlDeclUnits : List Nat := [60, 63, 120, 109, 108]

/-- Shallow embedding of `bufferToUtf8OrBase64`
(src/service/firebird/xmlDecoders.ts, lines 105-179): the five-step
encoding-detection heuristic.  The floating-point comparison
`zeroCount / buffer.length >= 0.2` is modelled exactly as the rational
comparison `5 * zeroCount ≥ length` (the two agree for all buffer sizes
representable in practice). -/
def bufferToUtf8OrBase64 (buffer : List Nat) : JsStr :=
  if buffer.length = 0 then []
  else if buffer.take 2 = [255, 254] then utf16leUnits (buffer.drop 2)
  else if buffer.take 2 = [254, 255] then utf16leUnits (swapPairs (buffer.drop 2))
  else
    let p := zeroCountsAux buffer true
    let zeroCount := p.1 + p.2
    if zeroCount > 0 ∧ 5 * zeroCount ≥ buffer.length then
      if p.2 ≥ p.1 then utf16leUnits buffer
      else utf16leUnits (swapPairs buffer)
    else
      let utf8Value := utf8Decode buffer
      if utf8Encode utf8Value = buffer then utf8Value
      else
        let cleanedUtf8 := utf8Value.filter (· ≠ 0)
        if cleanedUtf8.contains 60 then
          match subIndexOf cleanedUtf8 xmlDeclUnits with
          | some i => cleanedUtf8.drop i
          | none =>
            match subIndexOf cleanedUtf8 [60] with
            | some j => cleanedUtf8.drop j
            | none => cleanedUtf8
        else base64Units buffer

/-- The result record of `decodeZlibBuffer`: decoded text and
decompressed byte length. -/
structure DecodedXmlResult where
  decoded : Option JsStr
  byteLength : Option Nat
deriving DecidableEq, Repr

/-- The diagnostic payload of the decode-failure error thrown by
`decodeZlibBuffer` (the JS `Error` message interpolates exactly the
context string and the byte length, plus the last zlib error text). -/
structure DecodeFailure where
  context : String
  byteLength : Nat
deriving DecidableEq, Repr

/-- The three zlib decompression functions used by `decodeZlibBuffer`.
They live in Node's zlib library, outside this repository, so they are
oracle parameters: `none` models the function throwing on that input. -/
structure ZlibOracles where
  inflateS : List Nat → Option (List Nat)
  inflateRawS : List Nat → Option (List Nat)
  gunzipS : List Nat → Option (List Nat)

/-- Run a list of decompression candidates in order, returning the first
success (the `for (const inflate of inflateCandidates)` loop). -/
def firstInflateSuccess : List (List Nat → Option (List Nat)) → List Nat → Option (List Nat)
  | [], _ => none
  | f :: rest, buf =>
    match f buf with
    | some out => some out
    | none => firstInflateSuccess rest buf

/-- Shallow embedding of `decodeZlibBuffer`
(src/service/firebird/xmlDecoders.ts, lines 70-103).  The candidate
array in the source is `[inflateSync, inflateRawSync, gunzipSync]`. -/
def decodeZlibBuffer (Z : ZlibOracles) (buffer : Option (List Nat)) (context : String) :
    Except DecodeFailure DecodedXmlResult :=
  match buffer with
  | none => .ok ⟨none, none⟩
  | some buf =>
    if buf.length = 0 then .ok ⟨some [], some 0⟩
    else
      match firstInflateSuccess [Z.inflateS, Z.inflateRawS, Z.gunzipS] buf with
      | some out => .ok ⟨some (bufferToUtf8OrBase64 out), some out.length⟩
      | none =>
        let fallbackText := bufferToUtf8OrBase64 buf
        if fallbackText.length > 0 then .ok ⟨some fallbackText, some buf.length⟩
        else .error ⟨context, buf.length⟩

/-- The decoder that claim C1 describes, written from the spec words:
candidates in the order raw-deflate, zlib-wrapped, gzip.  Used only to
compare against the code's `decodeZlibBuffer`. -/
def decodeZlibBufferSpecC1 (Z : ZlibOracles) (buffer : Option (List Nat)) (context : String) :
    Except DecodeFailure DecodedXmlResult :=
  match buffer with
  | none => .ok ⟨none, none⟩
  | some buf =>
    if buf.length = 0 then .ok ⟨some [], some 0⟩
    else
      match firstInflateSuccess [Z.inflateRawS, Z.inflateS, Z.gunzipS] buf with
      | some out => .ok ⟨some (bufferToUtf8OrBase64 out), some out.length⟩
      | none =>
        let fallbackText := bufferToUtf8OrBase64 buf
        if fallbackText.length > 0 then .ok ⟨some fallbackText, some buf.length⟩
        else .error ⟨context, buf.length⟩

/-- Oracle where every decompression candidate throws. -/
def zlibAllFail : ZlibOracles := ⟨fun _ => none, fun _ => none, fun _ => none⟩

/-- Oracle distinguishing the candidate order: the zlib-wrapped candidate
succeeds with output `[65]`, the raw-deflate candidate with `[66, 66]`. -/
def zlibOrderProbe : ZlibOracles :=
  ⟨fun _ => some [65], fun _ => some [66, 66], fun _ => none⟩

theorem utf8Step_ascii (b : Nat) (rest : List Nat) (h : b < 0x80) :
    utf8Step b rest = ([b], 0) := by
  simp [utf8Step, h]

theorem utf8Decode_ascii :
    ∀ l : List Nat, (∀ b ∈ l, b < 0x80) → utf8Decode l = l := by
  intro l
  induction l with
  | nil => intro _; simp [utf8Decode]
  | cons b rest ih =>
    intro h
    rw [utf8Decode]
    rw [utf8Step_ascii b rest (h b (by simp))]
    simp only [List.drop_zero, List.cons_append, List.nil_append]
    rw [ih (fun x hx => h x (List.mem_cons_of_mem _ hx))]

theorem utf8EncodeScalar_ascii (u : Nat) (h : u < 0x80) :
    utf8EncodeScalar u = [u] := by
  simp [utf8EncodeScalar, h]

theorem utf8EncStep_ascii (u : Nat) (rest : List Nat) (h : u < 0x80) :
    utf8EncStep u rest = ([u], 0) := by
  have h1 : isHighSurrogate u = false := by simp [isHighSurrogate]; omega
  have h2 : isLowSurrogate u = false := by simp [isLowSurrogate]; omega
  simp [utf8EncStep, h1, h2, utf8EncodeScalar_ascii u h]

theorem utf8Encode_ascii :
    ∀ l : List Nat, (∀ b ∈ l, b < 0x80) → utf8Encode l = l := by
  intro l
  induction l with
  | nil => intro _; simp [utf8Encode]
  | cons b rest ih =>
    intro h
    rw [utf8Encode]
    rw [utf8EncStep_ascii b rest (h b (by simp))]
    simp only [List.drop_zero, List.cons_append, List.nil_append]
    rw [ih (fun x hx => h x (List.mem_cons_of_mem _ hx))]

theorem zeroCountsAux_no_zero :
    ∀ (l : List Nat), (∀ b ∈ l, 1 ≤ b) → ∀ e, zeroCountsAux l e = (0, 0) := by
  intro l
  induction l with
  | nil => intro _ e; simp [zeroCountsAux]
  | cons b rest ih =>
    intro h e
    have hb : ¬ b = 0 := by have := h b (by simp); omega
    simp [zeroCountsAux, hb, ih (fun x hx => h x (List.mem_cons_of_mem _ hx))]

/-- A plain-ASCII, NUL-free buffer survives the five-step heuristic via
the UTF-8 round-trip branch and decodes to its own bytes as code units. -/
theorem bufferToUtf8OrBase64_ascii (buf : List Nat) (hne : buf ≠ [])
    (h : ∀ b ∈ buf, 1 ≤ b ∧ b < 0x80) :
    bufferToUtf8OrBase64 buf = buf := by
  have hlen : ¬ buf.length = 0 := by
    simpa [List.length_eq_zero] using hne
  have hbom1 : ¬ buf.take 2 = [255, 254] := by
    intro hcontra
    have : (255 : Nat) ∈ buf.take 2 := by rw [hcontra]; simp
    have h255 := h 255 (List.mem_of_mem_take this)
    omega
  have hbom2 : ¬ buf.take 2 = [254, 255] := by
    intro hcontra
    have : (254 : Nat) ∈ buf.take 2 := by rw [hcontra]; simp
    have h254 := h 254 (List.mem_of_mem_take this)
    omega
  have hzc : zeroCountsAux buf true = (0, 0) :=
    zeroCountsAux_no_zero buf (fun b hb => (h b hb).1) true
  have hdec : utf8Decode buf = buf := utf8Decode_ascii buf (fun b hb => (h b hb).2)
  have henc : utf8Encode buf = buf := utf8Encode_ascii buf (fun b hb => (h b hb).2)
  simp [bufferToUtf8OrBase64, hlen, hbom1, hbom2, hzc, hdec, henc]

/-- C8: a non-empty buffer on which all three decompression candidates
throw is not an error: the raw bytes go through encoding detection as a
fallback, so a plain-ASCII uncompressed buffer returns its literal text
(its own bytes as code units) with the buffer's own byte length. -/
theorem C8_uncompressed_fallback (Z : ZlibOracles) (buf : List Nat) (ctx : String)
    (hne : buf ≠ [])
    (hascii : ∀ b ∈ buf, 1 ≤ b ∧ b < 0x80)
    (h1 : Z.inflateS buf = none) (h2 : Z.inflateRawS buf = none)
    (h3 : Z.gunzipS buf = none) :
    decodeZlibBuffer Z (some buf) ctx = .ok ⟨some buf, some buf.length⟩ := by
  have hlen : ¬ buf.length = 0 := by simpa [List.length_eq_zero] using hne
  have hfallback : bufferToUtf8OrBase64 buf = buf := bufferToUtf8OrBase64_ascii buf hne hascii
  have hpos : buf.length > 0 := Nat.pos_of_ne_zero hlen
  simp [decodeZlibBuffer, hlen, firstInflateSuccess, h1, h2, h3, hfallback, hpos]

/-- Witness for C8 at the ASCII buffer "Hello" with the all-fail oracle. -/
theorem C8_uncompressed_fallback_witness :
    decodeZlibBuffer zlibAllFail (some [72, 101, 108, 108, 111]) "ctx" =
      .ok ⟨some [72, 101, 108, 108, 111], some 5⟩ :=
  C8_uncompressed_fallback zlibAllFail [72, 101, 108, 108, 111] "ctx"
    (by decide) (by decide) rfl rfl rfl

/-- C1 counterexample: the code's decoder and the claim's decoder (raw
deflate attempted first) disagree on a buffer that both the zlib-wrapped
and the raw-deflate candidates can decompress, with different outputs. -/
theorem C1_counterexample :
    decodeZlibBuffer zlibOrderProbe (some [1]) "c" ≠
      decodeZlibBufferSpecC1 zlibOrderProbe (some [1]) "c" := by
  have hL : decodeZlibBuffer zlibOrderProbe (some [1]) "c" =
      .ok ⟨some (bufferToUtf8OrBase64 [65]), some 1⟩ := by
    simp [decodeZlibBuffer, firstInflateSuccess, zlibOrderProbe]
  have hR : decodeZlibBufferSpecC1 zlibOrderProbe (some [1]) "c" =
      .ok ⟨some (bufferToUtf8OrBase64 [66, 66]), some 2⟩ := by
    simp [decodeZlibBufferSpecC1, firstInflateSuccess, zlibOrderProbe]
  rw [hL, hR]
  intro hcontra
  simp [DecodedXmlResult.mk.injEq] at hcontra

/-- C1 amended: for every non-empty buffer, `decodeZlibBuffer` attempts
candidates in the order (1) zlib-wrapped, (2) raw-deflate, (3) gzip; the
first that succeeds determines the result: its output goes through
encoding detection and its decompressed byte length is returned. -/
theorem C1_amended (Z : ZlibOracles) (buf : List Nat) (ctx : String) (hne : buf ≠ []) :
    (∀ out, Z.inflateS buf = some out →
      decodeZlibBuffer Z (some buf) ctx =
        .ok ⟨some (bufferToUtf8OrBase64 out), some out.length⟩) ∧
    (Z.inflateS buf = none → ∀ out, Z.inflateRawS buf = some out →
      decodeZlibBuffer Z (some buf) ctx =
        .ok ⟨some (bufferToUtf8OrBase64 out), some out.length⟩) ∧
    (Z.inflateS buf = none → Z.inflateRawS buf = none → ∀ out, Z.gunzipS buf = some out →
      decodeZlibBuffer Z (some buf) ctx =
        .ok ⟨some (bufferToUtf8OrBase64 out), some out.length⟩) := by
  have hlen : ¬ buf.length = 0 := by simpa [List.length_eq_zero] using hne
  refine ⟨?_, ?_, ?_⟩
  · intro out hout
    simp [decodeZlibBuffer, hlen, firstInflateSuccess, hout]
  · intro h1 out hout
    simp [decodeZlibBuffer, hlen, firstInflateSuccess, h1, hout]
  · intro h1 h2 out hout
    simp [decodeZlibBuffer, hlen, firstInflateSuccess, h1, h2, hout]

/-- Witness for C1 amended: the zlib-wrapped candidate wins on the probe
oracle. -/
theorem C1_amended_witness :
    decodeZlibBuffer zlibOrderProbe (some [1]) "c" =
      .ok ⟨some (bufferToUtf8OrBase64 [65]), some 1⟩ :=
  (C1_amended zlibOrderProbe [1] "c" (by decide)).1 [65] rfl

/-- C10 counterexample: the buffer holding just a UTF-16LE byte-order
mark is non-empty, yet encoding detection yields the empty string, and
with all three decompression candidates failing `decodeZlibBuffer`
reaches its error branch. -/
theorem C10_counterexample :
    ([255, 254] : List Nat) ≠ [] ∧
    bufferToUtf8OrBase64 [255, 254] = [] ∧
    decodeZlibBuffer zlibAllFail (some [255, 254]) "WYSYLKICELINA" =
      .error ⟨"WYSYLKICELINA", 2⟩ := by
  refine ⟨by decide, by decide, by rfl⟩

/-- C10 amended: `decodeZlibBuffer` throws exactly when the buffer is
non-empty, all three decompression candidates fail, and encoding
detection of the raw bytes yields an empty string. -/
theorem C10_amended (Z : ZlibOracles) (buf : List Nat) (ctx : String) :
    decodeZlibBuffer Z (some buf) ctx = .error ⟨ctx, buf.length⟩ ↔
      (buf ≠ [] ∧ Z.inflateS buf = none ∧ Z.inflateRawS buf = none ∧
        Z.gunzipS buf = none ∧ bufferToUtf8OrBase64 buf = []) := by
  by_cases hb : buf.length = 0
  · have : buf = [] := List.length_eq_zero.mp hb
    subst this
    simp [decodeZlibBuffer]
  · have hne : buf ≠ [] := fun hcontra => hb (by simp [hcontra])
    cases h1 : Z.inflateS buf with
    | some out => simp [decodeZlibBuffer, hb, firstInflateSuccess, h1]
    | none =>
      cases h2 : Z.inflateRawS buf with
      | some out => simp [decodeZlibBuffer, hb, firstInflateSuccess, h1, h2]
      | none =>
        cases h3 : Z.gunzipS buf with
        | some out => simp [decodeZlibBuffer, hb, firstInflateSuccess, h1, h2, h3]
        | none =>
          by_cases hf : bufferToUtf8OrBase64 buf = []
          · simp [decodeZlibBuffer, hb, firstInflateSuccess, h1, h2, h3, hf, hne]
          · have hpos : 0 < (bufferToUtf8OrBase64 buf).length :=
              List.length_pos.mpr hf
            simp [decodeZlibBuffer, hb, firstInflateSuccess, h1, h2, h3, hpos, hf]

/-! ## Parsed XML trees and the path language (src/utils/wysylkaXml.ts)

Parsed-XML values are the JS values produced by fast-xml-parser:
null, string, number, boolean, array, object.  Arrays and objects are
mutual inductives so that every operation below is structurally
recursive and kernel-computable.  JS numbers are modelled as integers,
which covers every numeric value the parser produces from the documents
these claims concern. -/

mutual

inductive JsVal where
  | null : JsVal
  | str : String → JsVal
  | num : Int → JsVal
  | bool : Bool → JsVal
  | arr : JsArr → JsVal
  | obj : JsObj → JsVal
deriving DecidableEq, Repr

inductive JsArr where
  | nil : JsArr
  | cons : JsVal → JsArr → JsArr
deriving DecidableEq, Repr

inductive JsObj where
  | nil : JsObj
  | cons : String → JsVal → JsObj → JsObj
deriving DecidableEq, Repr

end

/-- The character set of JS `\s` and `String.prototype.trim`. -/
def jsIsWhitespaceChar (c : Char) : Bool :=
  let n := c.toNat
  decide (n = 9 ∨ n = 10 ∨ n = 11 ∨ n = 12 ∨ n = 13 ∨ n = 32 ∨ n = 0xA0 ∨
    n = 0x1680 ∨ (0x2000 ≤ n ∧ n ≤ 0x200A) ∨ n = 0x2028 ∨ n = 0x2029 ∨
    n = 0x202F ∨ n = 0x205F ∨ n = 0x3000 ∨ n = 0xFEFF)

/-- Strip JS whitespace from both ends of a character list. -/
def jsTrimList (l : List Char) : List Char :=
  ((l.dropWhile jsIsWhitespaceChar).reverse.dropWhile jsIsWhitespaceChar).reverse

/-- JS `String.prototype.trim`. -/
def jsTrim (s : String) : String := String.mk (jsTrimList s.data)

/-- JS object property lookup: `none` models `undefined`. -/
def lookupField : JsObj → String → Option JsVal
  | .nil, _ => none
  | .cons k v rest, key => if k = key then some v else lookupField rest key

/-- JS array element lookup `xs[i]`: out of range is `undefined`. -/
def jsArrGet : JsArr → Nat → Option JsVal
  | .nil, _ => none
  | .cons v _, 0 => some v
  | .cons _ rest, i + 1 => jsArrGet rest i

/-- `String(v)` for a JS boolean. -/
def jsBoolToString (b : Bool) : String := if b then "true" else "false"

mutual

/-- Shallow embedding of `coerceToString` (wysylkaXml.ts, lines 95-128):
scalars stringify, arrays take the first coercible element, objects use
their `#text` slot when it is a string. -/
def coerceToString : JsVal → Option String
  | .null => none
  | .str s => some s
  | .num n => some (toString n)
  | .bool b => some (jsBoolToString b)
  | .arr xs => coerceFirst xs
  | .obj fs =>
    match lookupField fs "#text" with
    | some (.str s) => some s
    | _ => none

/-- First element of an array that coerces to a string. -/
def coerceFirst : JsArr → Option String
  | .nil => none
  | .cons v rest =>
    match coerceToString v with
    | some s => some s
    | none => coerceFirst rest

end

mutual

/-- Structural size of a parsed-XML value (fuel bound for loops). -/
def jsValSize : JsVal → Nat
  | .null => 1
  | .str _ => 1
  | .num _ => 1
  | .bool _ => 1
  | .arr xs => jsArrSize xs + 1
  | .obj fs => jsObjSize fs + 1

/-- Structural size of an array. -/
def jsArrSize : JsArr → Nat
  | .nil => 1
  | .cons v rest => jsValSize v + jsArrSize rest + 1

/-- Structural size of an object. -/
def jsObjSize : JsObj → Nat
  | .nil => 1
  | .cons _ v rest => jsValSize v + jsObjSize rest + 1

end

/-- `key.startsWith("@_")`: does the key mark an XML attribute? -/
def isAttrKey (k : String) : Bool :=
  match k.data with
  | '@' :: '_' :: _ => true
  | _ => false

/-- The non-attribute entries of an object: keys not starting `@_`
(`Object.entries(current).filter(([key]) => !key.startsWith("@_"))`). -/
def nonAttrEntries : JsObj → JsObj
  | .nil => .nil
  | .cons k v rest =>
    if isAttrKey k then nonAttrEntries rest
    else .cons k v (nonAttrEntries rest)

/-- One step of the `unwrapSingleChild` loop: the single non-attribute
child when there is exactly one. -/
def singleNonAttrChild (fs : JsObj) : Option JsVal :=
  match nonAttrEntries fs with
  | .cons _ v .nil => some v
  | _ => none

/-- The loop body of `unwrapSingleChild` (wysylkaXml.ts, lines 130-161)
with explicit fuel.  Each iteration descends into a strict subterm, so
any fuel at least `sizeOf` the value computes the loop's fixpoint; the
`visited` cycle guard of the source is vacuous on inductive trees. -/
def unwrapAux : Nat → JsVal → JsVal
  | 0, v => v
  | fuel + 1, v =>
    match v with
    | .obj fs =>
      match singleNonAttrChild fs with
      | some next =>
        match next with
        | .obj m => unwrapAux fuel (.obj m)
        | w => w
      | none => v
    | _ => v

/-- Shallow embedding of `unwrapSingleChild`: while the current value is
a non-array object with exactly one non-attribute entry, descend into
that entry; a non-object single child is returned as is. -/
def unwrapSingleChild (v : JsVal) : JsVal := unwrapAux (jsValSize v) v

/-- A parsed path segment: identifier plus optional bracketed index. -/
structure PathSegment where
  key : String
  index : Option Nat
deriving Repr, DecidableEq

/-- The traversal loop of `getValueAtPath` (wysylkaXml.ts, lines
163-212), with explicit fuel; every iteration moves to a strictly
smaller value, so fuel `sizeOf root` suffices (`getValueAtPathAux`).
`none` collapses the JS `null`/`undefined` distinction: both make the
loop (or the final `coerceToString`) produce `null`.  The source guard
`unwrapped !== current` compares references; on tree-shaped data the
unwrap loop moves (returning a strict descendant, which is never
reference-equal nor structurally equal to the original) exactly when the
object has exactly one non-attribute entry, which is how the guard is
rendered here (certified by `unwrapAux_moved` / `unwrapAux_not_moved`
below). -/
def getValueAtPathLoop : Nat → JsVal → List PathSegment → Option String
  | _, current, [] => coerceToString current
  | 0, _, _ :: _ => none
  | fuel + 1, current, seg :: rest =>
    match current with
    | .obj fs =>
      match lookupField fs seg.key with
      | none =>
        match singleNonAttrChild fs with
        | some _ => getValueAtPathLoop fuel (unwrapSingleChild (.obj fs)) (seg :: rest)
        | none => none
      | some next =>
        match next, seg.index with
        | .arr xs, some i =>
          match jsArrGet xs i with
          | none => none
          | some v => getValueAtPathLoop fuel v rest
        | .arr _, none => none
        | _, some _ => none
        | v, none => getValueAtPathLoop fuel v rest
    | _ => none

/-- Shallow embedding of the traversal of `getValueAtPath` over parsed
segments, with sufficient fuel supplied. -/
def getValueAtPathAux (root : JsVal) (segs : List PathSegment) : Option String :=
  getValueAtPathLoop (jsValSize root) root segs

theorem jsValSize_pos (v : JsVal) : 0 < jsValSize v := by
  cases v <;> simp [jsValSize]

theorem jsObjSize_nonAttr_le : ∀ (fs : JsObj), jsObjSize (nonAttrEntries fs) ≤ jsObjSize fs
  | .nil => by simp [nonAttrEntries]
  | .cons k v rest => by
    have ih := jsObjSize_nonAttr_le rest
    by_cases h : isAttrKey k = true
    · simp only [nonAttrEntries, h, if_true, jsObjSize]
      omega
    · simp only [nonAttrEntries, h, if_false, jsObjSize]
      omega

theorem singleNonAttrChild_size {fs : JsObj} {c : JsVal}
    (h : singleNonAttrChild fs = some c) : jsValSize c + 2 ≤ jsObjSize fs := by
  unfold singleNonAttrChild at h
  have hle := jsObjSize_nonAttr_le fs
  cases hna : nonAttrEntries fs with
  | nil => rw [hna] at h; simp at h
  | cons k v rest =>
    cases rest with
    | cons k2 v2 rest2 => rw [hna] at h; simp at h
    | nil =>
      rw [hna] at h
      simp at h
      rw [hna] at hle
      simp only [jsObjSize] at hle
      subst h
      omega

theorem lookupField_size : ∀ {fs : JsObj} {k : String} {v : JsVal},
    lookupField fs k = some v → jsValSize v < jsValSize (.obj fs)
  | .nil, k, v, h => by simp [lookupField] at h
  | .cons k2 v2 rest, k, v, h => by
    by_cases hk : k2 = k
    · simp only [lookupField, hk, if_true] at h
      cases h
      simp only [jsValSize, jsObjSize]
      omega
    · simp only [lookupField, hk, if_false] at h
      have := lookupField_size h
      simp only [jsValSize, jsObjSize] at this ⊢
      omega

theorem jsArrGet_size : ∀ {xs : JsArr} {i : Nat} {v : JsVal},
    jsArrGet xs i = some v → jsValSize v < jsValSize (.arr xs)
  | .nil, i, v, h => by simp [jsArrGet] at h
  | .cons w rest, 0, v, h => by
    simp only [jsArrGet] at h
    cases h
    simp only [jsValSize, jsArrSize]
    omega
  | .cons w rest, i + 1, v, h => by
    simp only [jsArrGet] at h
    have := jsArrGet_size h
    simp only [jsValSize, jsArrSize] at this ⊢
    omega

theorem unwrapAux_size_le : ∀ (fuel : Nat) (v : JsVal), jsValSize (unwrapAux fuel v) ≤ jsValSize v := by
  intro fuel
  induction fuel with
  | zero => intro v; simp [unwrapAux]
  | succ n ih =>
    intro v
    match v with
    | .null | .str _ | .num _ | .bool _ | .arr _ => simp [unwrapAux]
    | .obj fs =>
      simp only [unwrapAux]
      cases hs : singleNonAttrChild fs with
      | none => simp
      | some c =>
        have hc := singleNonAttrChild_size hs
        match c with
        | .obj m =>
          have := ih (JsVal.obj m)
          simp only [jsValSize] at *
          omega
        | .null | .str _ | .num _ | .bool _ | .arr _ =>
          simp only [jsValSize] at *
          omega

/-- With fuel, an object with exactly one non-attribute child unwraps to
a strictly smaller value: the `unwrapped !== current` reference test of
the source is true in exactly this case. -/
theorem unwrapAux_moved {fs : JsObj} {c : JsVal} (fuel : Nat)
    (h : singleNonAttrChild fs = some c) :
    jsValSize (unwrapAux (fuel + 1) (.obj fs)) < jsValSize (.obj fs) := by
  simp only [unwrapAux, h]
  have hc := singleNonAttrChild_size h
  match c with
  | .obj m =>
    have := unwrapAux_size_le fuel (JsVal.obj m)
    simp only [jsValSize] at *
    omega
  | .null | .str _ | .num _ | .bool _ | .arr _ =>
    simp only [jsValSize] at *
    omega

/-- Without a single non-attribute child the unwrap loop does not move:
the `unwrapped !== current` reference test of the source is false. -/
theorem unwrapAux_not_moved {fs : JsObj} (fuel : Nat)
    (h : singleNonAttrChild fs = none) :
    unwrapAux fuel (.obj fs) = .obj fs := by
  cases fuel with
  | zero => simp [unwrapAux]
  | succ n => simp [unwrapAux, h]

theorem unwrapAux_fuel_irrel : ∀ (f g : Nat) (v : JsVal),
    jsValSize v ≤ f → jsValSize v ≤ g → unwrapAux f v = unwrapAux g v := by
  intro f
  induction f with
  | zero =>
    intro g v hf hg
    have := jsValSize_pos v
    omega
  | succ n ih =>
    intro g v hf hg
    cases g with
    | zero => have := jsValSize_pos v; omega
    | succ m =>
      match v with
      | .null | .str _ | .num _ | .bool _ | .arr _ => simp [unwrapAux]
      | .obj fs =>
        simp only [unwrapAux]
        cases hs : singleNonAttrChild fs with
        | none => rfl
        | some c =>
          have hc := singleNonAttrChild_size hs
          match c with
          | .obj k =>
            simp only []
            apply ih
            · simp only [jsValSize] at *; omega
            · simp only [jsValSize] at *; omega
          | .null | .str _ | .num _ | .bool _ | .arr _ => rfl

theorem unwrapAux_eq_unwrapSingleChild (fuel : Nat) (v : JsVal)
    (h : jsValSize v ≤ fuel) : unwrapAux fuel v = unwrapSingleChild v :=
  unwrapAux_fuel_irrel fuel (jsValSize v) v h (Nat.le_refl _)

theorem getValueAtPathLoop_fuel_irrel : ∀ (f g : Nat) (current : JsVal) (segs : List PathSegment),
    jsValSize current ≤ f → jsValSize current ≤ g →
    getValueAtPathLoop f current segs = getValueAtPathLoop g current segs := by
  intro f
  induction f with
  | zero =>
    intro g v segs hf hg
    have := jsValSize_pos v
    omega
  | succ n ih =>
    intro g current segs hf hg
    cases segs with
    | nil => cases g <;> rfl
    | cons seg rest =>
      cases g with
      | zero => have := jsValSize_pos current; omega
      | succ m =>
        cases current with
        | null => simp [getValueAtPathLoop]
        | str s => simp [getValueAtPathLoop]
        | num k => simp [getValueAtPathLoop]
        | bool b => simp [getValueAtPathLoop]
        | arr xs => simp [getValueAtPathLoop]
        | obj fs =>
          simp only [getValueAtPathLoop]
          cases hlk : lookupField fs seg.key with
          | none =>
            simp only [hlk]
            cases hs : singleNonAttrChild fs with
            | none => simp
            | some c =>
              simp only []
              have h1 : jsValSize (unwrapSingleChild (.obj fs)) < jsValSize (.obj fs) := by
                have hm := unwrapAux_moved (jsObjSize fs) hs
                unfold unwrapSingleChild
                simpa [jsValSize] using hm
              apply ih
              · omega
              · omega
          | some next =>
            simp only [hlk]
            have hnext : jsValSize next < jsValSize (.obj fs) := lookupField_size hlk
            cases next with
            | arr xs =>
              cases hidx : seg.index with
              | none => simp
              | some i =>
                simp only []
                cases hget : jsArrGet xs i with
                | none => simp [hget]
                | some v =>
                  simp only [hget]
                  have h2 : jsValSize v < jsValSize (JsVal.arr xs) := jsArrGet_size hget
                  apply ih
                  · simp only [jsValSize] at *; omega
                  · simp only [jsValSize] at *; omega
            | null =>
              cases hidx : seg.index with
              | none => simp only []; apply ih <;> omega
              | some i => simp
            | str s =>
              cases hidx : seg.index with
              | none => simp only []; apply ih <;> omega
              | some i => simp
            | num k =>
              cases hidx : seg.index with
              | none => simp only []; apply ih <;> omega
              | some i => simp
            | bool b =>
              cases hidx : seg.index with
              | none => simp only []; apply ih <;> omega
              | some i => simp
            | obj gs =>
              cases hidx : seg.index with
              | none => simp only []; apply ih <;> omega
              | some i => simp

theorem getValueAtPathLoop_eq_aux (fuel : Nat) (current : JsVal) (segs : List PathSegment)
    (h : jsValSize current ≤ fuel) :
    getValueAtPathLoop fuel current segs = getValueAtPathAux current segs :=
  getValueAtPathLoop_fuel_irrel fuel (jsValSize current) current segs h (Nat.le_refl _)

/-- Digits of `\d+` parsed as a decimal number (`Number.parseInt`). -/
def digitsToNat (l : List Char) : Nat :=
  l.foldl (fun acc c => acc * 10 + (c.toNat - 48)) 0

/-- Shallow embedding of the per-segment regex
`^([^\[]+)(?:\[(\d+)\])?$` of `parsePathSegments` (wysylkaXml.ts, lines
75-93): a non-empty bracket-free key, optionally followed by a bracketed
index; anything else throws. -/
def parseSegment (segRaw : String) : Except String PathSegment :=
  let seg := jsTrim segRaw
  match seg.data with
  | [] => .error "Invalid empty segment in path"
  | cs =>
    let key := cs.takeWhile (fun c => c ≠ '[')
    match cs.dropWhile (fun c => c ≠ '[') with
    | [] => .ok ⟨String.mk key, none⟩
    | _ :: tail =>
      let digits := tail.takeWhile Char.isDigit
      if key.isEmpty ∨ digits.isEmpty then .error "Unsupported segment format"
      else
        match tail.dropWhile Char.isDigit with
        | [']'] => .ok ⟨String.mk key, some (digitsToNat digits)⟩
        | _ => .error "Unsupported segment format"

/-- `path.split(".")` on the character list: empty pieces are kept. -/
def splitOnDot : List Char → List (List Char)
  | [] => [[]]
  | c :: rest =>
    match splitOnDot rest with
    | h :: t => if c = '.' then [] :: h :: t else (c :: h) :: t
    | [] => [[c]]

/-- Shallow embedding of `parsePathSegments`: split on dots, parse each
segment, first failure propagates (the JS exception). -/
def parsePathSegments (path : String) : Except String (List PathSegment) :=
  ((splitOnDot path.data).map String.mk).mapM parseSegment

/-- Shallow embedding of `getValueAtPath` (wysylkaXml.ts, lines
163-212): a null root short-circuits before the path is parsed; a
malformed path throws (the `Except.error` case). -/
def getValueAtPath (root : JsVal) (path : String) : Except String (Option String) :=
  match root with
  | .null => .ok none
  | r => (parsePathSegments path).map (fun segs => getValueAtPathAux r segs)

/-- C4: in `getValueAtPath`, an array value is followed only when the
current path segment carries an explicit bracketed index: an array
encountered at a segment without an index resolves the whole path to
null (no error), and an index on a non-array value also yields null. -/
theorem C4_array_index_strictness (fs : JsObj) (seg : PathSegment) (rest : List PathSegment) :
    (∀ xs, lookupField fs seg.key = some (.arr xs) → seg.index = none →
      getValueAtPathAux (.obj fs) (seg :: rest) = none) ∧
    (∀ v i, lookupField fs seg.key = some v → (∀ xs, v ≠ .arr xs) → seg.index = some i →
      getValueAtPathAux (.obj fs) (seg :: rest) = none) := by
  constructor
  · intro xs hlk hidx
    simp only [getValueAtPathAux, jsValSize, getValueAtPathLoop, hlk, hidx]
  · intro v i hlk hv hidx
    cases v with
    | arr xs => exact absurd rfl (hv xs)
    | null => simp only [getValueAtPathAux, jsValSize, getValueAtPathLoop, hlk, hidx]
    | str s => simp only [getValueAtPathAux, jsValSize, getValueAtPathLoop, hlk, hidx]
    | num k => simp only [getValueAtPathAux, jsValSize, getValueAtPathLoop, hlk, hidx]
    | bool b => simp only [getValueAtPathAux, jsValSize, getValueAtPathLoop, hlk, hidx]
    | obj gs => simp only [getValueAtPathAux, jsValSize, getValueAtPathLoop, hlk, hidx]

/-- Witness for C4: an un-indexed segment meeting an array, and an
indexed segment meeting a string. -/
theorem C4_array_index_strictness_witness :
    getValueAtPathAux (.obj (.cons "A" (.arr (.cons (.str "x") .nil)) .nil))
      [⟨"A", none⟩] = none ∧
    getValueAtPathAux (.obj (.cons "B" (.str "x") .nil))
      [⟨"B", some 0⟩] = none := by
  constructor
  · exact (C4_array_index_strictness (.cons "A" (.arr (.cons (.str "x") .nil)) .nil)
      ⟨"A", none⟩ []).1 (.cons (.str "x") .nil) rfl rfl
  · exact (C4_array_index_strictness (.cons "B" (.str "x") .nil)
      ⟨"B", some 0⟩ []).2 (.str "x") 0 rfl (fun xs h => JsVal.noConfusion h) rfl

/-- The tree `{W: {B: "x"}}`: the key `B` is reachable after peeling one
single-child wrapper. -/
def c2Tree : JsVal := .obj (.cons "W" (.obj (.cons "B" (.str "x") .nil)) .nil)

/-- C2 counterexample: on `{W: {B: "x"}}` and path `"B"`, the root has
no key `B` and exactly one non-attribute child `{B: "x"}` that carries
the key, so the claimed one-level substitution would resolve to `"x"`;
the code's unwrap loop instead descends through `{B: "x"}` (itself a
single-child object) down to the string `"x"` and the traversal then
returns null. -/
theorem C2_counterexample :
    lookupField (.cons "W" (.obj (.cons "B" (.str "x") .nil)) .nil) "B" = none ∧
    singleNonAttrChild (.cons "W" (.obj (.cons "B" (.str "x") .nil)) .nil) =
      some (.obj (.cons "B" (.str "x") .nil)) ∧
    lookupField (.cons "B" (.str "x") .nil) "B" = some (.str "x") ∧
    getValueAtPath c2Tree "B" = .ok none ∧
    getValueAtPath c2Tree "B" ≠ .ok (some "x") := by
  refine ⟨rfl, rfl, rfl, rfl, ?_⟩
  intro h
  rw [show getValueAtPath c2Tree "B" = .ok none from rfl] at h
  simp at h

/-- C2 amended: when the current object has no key matching the current
segment but has exactly one non-attribute child, the node substituted
for it is the result of exhaustively peeling single-non-attribute-child
wrappers, `unwrapSingleChild` (the peel continues through children that
are themselves single-child objects and stops at a non-object or at an
object whose non-attribute child count differs from one), and traversal
retries the same segment; without exactly one non-attribute child the
path resolves to null; in particular, one peeled wrapper is transparent
exactly when the peeled child is not itself a
single-non-attribute-child object. -/
theorem C2_amended (fs : JsObj) (seg : PathSegment) (rest : List PathSegment)
    (hmiss : lookupField fs seg.key = none) :
    (∀ c, singleNonAttrChild fs = some c →
      getValueAtPathAux (.obj fs) (seg :: rest) =
        getValueAtPathAux (unwrapSingleChild (.obj fs)) (seg :: rest)) ∧
    (singleNonAttrChild fs = none →
      getValueAtPathAux (.obj fs) (seg :: rest) = none) ∧
    (∀ (k0 : String) (c : JsVal), nonAttrEntries fs = .cons k0 c .nil →
      (∀ m, c = .obj m → singleNonAttrChild m = none) →
      getValueAtPathAux (.obj fs) (seg :: rest) = getValueAtPathAux c (seg :: rest)) := by
  refine ⟨?_, ?_, ?_⟩
  · intro c hs
    have hlt : jsValSize (unwrapSingleChild (.obj fs)) < jsValSize (.obj fs) := by
      have hm := unwrapAux_moved (jsObjSize fs) hs
      unfold unwrapSingleChild
      simpa [jsValSize] using hm
    simp only [getValueAtPathAux, jsValSize, getValueAtPathLoop, hmiss, hs]
    exact getValueAtPathLoop_eq_aux (jsObjSize fs) (unwrapSingleChild (.obj fs)) (seg :: rest)
      (by simp only [jsValSize] at hlt; omega)
  · intro hs
    simp only [getValueAtPathAux, jsValSize, getValueAtPathLoop, hmiss, hs]
  · intro k0 c hsingle hstop
    have hs : singleNonAttrChild fs = some c := by
      unfold singleNonAttrChild
      rw [hsingle]
    have hcsize := singleNonAttrChild_size hs
    have huw : unwrapSingleChild (.obj fs) = c := by
      unfold unwrapSingleChild
      simp only [jsValSize, unwrapAux, hs]
      cases c with
      | obj m =>
        have hm := hstop m rfl
        show unwrapAux (jsObjSize fs) (JsVal.obj m) = JsVal.obj m
        exact unwrapAux_not_moved (jsObjSize fs) hm
      | null => rfl
      | str s => rfl
      | num k => rfl
      | bool b => rfl
      | arr xs => rfl
    simp only [getValueAtPathAux, jsValSize, getValueAtPathLoop, hmiss, hs]
    rw [huw]
    exact getValueAtPathLoop_fuel_irrel (jsObjSize fs) (jsValSize c) c (seg :: rest)
      (by omega) (Nat.le_refl _)

/-- Witness for C2 amended: on `{W: {B: "x"}}` the substituted node is
the exhaustive peel (which descends through `{B: "x"}`), and one wrapper
around a two-child object is transparent for the same segment. -/
theorem C2_amended_witness :
    (getValueAtPathAux (.obj (.cons "W" (.obj (.cons "B" (.str "x") .nil)) .nil))
        [⟨"B", none⟩] =
      getValueAtPathAux
        (unwrapSingleChild (.obj (.cons "W" (.obj (.cons "B" (.str "x") .nil)) .nil)))
        [⟨"B", none⟩]) ∧
    (getValueAtPathAux
        (.obj (.cons "W" (.obj (.cons "B" (.str "x") (.cons "C" (.str "y") .nil))) .nil))
        [⟨"B", none⟩] =
      getValueAtPathAux (.obj (.cons "B" (.str "x") (.cons "C" (.str "y") .nil)))
        [⟨"B", none⟩]) := by
  constructor
  · exact (C2_amended (.cons "W" (.obj (.cons "B" (.str "x") .nil)) .nil)
      ⟨"B", none⟩ [] rfl).1 (.obj (.cons "B" (.str "x") .nil)) rfl
  · exact (C2_amended (.cons "W" (.obj (.cons "B" (.str "x") (.cons "C" (.str "y") .nil))) .nil)
      ⟨"B", none⟩ [] rfl).2.2 "W" (.obj (.cons "B" (.str "x") (.cons "C" (.str "y") .nil)))
      rfl (by intro m hm; cases hm; rfl)

/-! ## Aggregators and field extraction (src/utils/wysylkaXml.ts) -/

/-- Collapse every run of JS whitespace to a single space
(`raw.replace(/\s+/g, " ")`); the flag records whether the previous
character belonged to a whitespace run. -/
def collapseWsAux : Bool → List Char → List Char
  | _, [] => []
  | prevWs, c :: rest =>
    if jsIsWhitespaceChar c then
      if prevWs then collapseWsAux true rest
      else ' ' :: collapseWsAux true rest
    else c :: collapseWsAux false rest

/-- A character matched by the amount-body class `[\d\s.,]`. -/
def isAmountBodyChar (c : Char) : Bool :=
  c.isDigit || jsIsWhitespaceChar c || c = '.' || c = ','

/-- First match of `/[-+]?\d[\d\s.,]*/` (earliest start, greedy body). -/
def findAmountMatch : List Char → Option (List Char)
  | [] => none
  | c :: rest =>
    if c.isDigit then some (c :: rest.takeWhile isAmountBodyChar)
    else if c = '-' ∨ c = '+' then
      match rest with
      | [] => none
      | d :: rest2 =>
        if d.isDigit then some (c :: d :: rest2.takeWhile isAmountBodyChar)
        else findAmountMatch rest
    else findAmountMatch rest

/-- `lastIndexOf` of a character, `-1` when absent. -/
def lastIndexOfCharAux : List Char → Char → Nat → Int
  | [], _, _ => -1
  | x :: rest, c, i =>
    let later := lastIndexOfCharAux rest c (i + 1)
    if later = -1 then (if x = c then (i : Int) else -1) else later

/-- JS `String.prototype.lastIndexOf` for one character. -/
def lastIndexOfChar (l : List Char) (c : Char) : Int := lastIndexOfCharAux l c 0

/-- JS `String.prototype.replace` with a plain one-character pattern:
only the first occurrence is replaced. -/
def replaceFirstChar : List Char → Char → Char → List Char
  | [], _, _ => []
  | c :: rest, a, b => if c = a then b :: rest else c :: replaceFirstChar rest a b

/-- The exact decimal value `mantissa / 10 ^ scale` of a parsed decimal
literal.  JS doubles are exact for the at-most-two-decimal monetary
amounts these fields carry, so `Number.parseFloat` followed by
`Math.round(x * 100)` computes the same cents as this exact decimal. -/
structure DecAmount where
  mantissa : Int
  scale : Nat
deriving DecidableEq, Repr

/-- `Number.parseFloat` on the normalized amount candidate (whose
alphabet is sign, digits and dots): longest prefix of the shape
`[+-]?digits(.digits)?`; no digit at all is NaN (`none`). -/
def jsParseFloat (l : List Char) : Option DecAmount :=
  let p : Int × List Char :=
    match l with
    | '-' :: t => (-1, t)
    | '+' :: t => (1, t)
    | t => (1, t)
  let intPart := p.2.takeWhile Char.isDigit
  let afterInt := p.2.dropWhile Char.isDigit
  let fracPart :=
    match afterInt with
    | '.' :: t => t.takeWhile Char.isDigit
    | _ => []
  if intPart.isEmpty && fracPart.isEmpty then none
  else
    some ⟨p.1 * ((digitsToNat intPart : Int) * 10 ^ fracPart.length + digitsToNat fracPart),
      fracPart.length⟩

/-- `Math.round(amount * 100)` on the exact decimal `m / 10^k`:
`⌊amount * 100 + 1/2⌋`, computed as a floor division over integers. -/
def jsRoundTimes100 (a : DecAmount) : Int :=
  Int.fdiv (2 * a.mantissa * 100 + 10 ^ a.scale) (2 * 10 ^ a.scale)

/-- JS `\w` word characters. -/
def isWordChar (c : Char) : Bool :=
  c.isDigit || ('A' ≤ c && c ≤ 'Z') || ('a' ≤ c && c ≤ 'z') || c = '_'

/-- An ASCII letter (`[A-Z]` under the `i` flag). -/
def isAsciiLetterChar (c : Char) : Bool :=
  ('A' ≤ c && c ≤ 'Z') || ('a' ≤ c && c ≤ 'z')

/-- Word boundary before the window: start of string or a non-word
character. -/
def boundaryBefore : Option Char → Bool
  | none => true
  | some p => !isWordChar p

/-- Word boundary after the window: end of string or a non-word
character. -/
def boundaryAfter : List Char → Bool
  | [] => true
  | c :: _ => !isWordChar c

/-- First match of `/\b([A-Z]{3})\b/i`: the earliest three-letter window
delimited by word boundaries. -/
def findCurrencyAux : Option Char → List Char → Option (List Char)
  | _, [] => none
  | prev, c1 :: rest1 =>
    match rest1 with
    | c2 :: c3 :: rest3 =>
      if boundaryBefore prev && isAsciiLetterChar c1 && isAsciiLetterChar c2 &&
          isAsciiLetterChar c3 && boundaryAfter rest3
      then some [c1, c2, c3]
      else findCurrencyAux (some c1) rest1
    | _ => none

/-- Shallow embedding of `parseAmountAndCurrency` (wysylkaXml.ts, lines
286-321): collapse whitespace, find the amount run, normalize the
comma/dot decimal separator by last-separator position, parse the
amount, and find an embedded 3-letter currency code (uppercased). -/
def parseAmountAndCurrency (raw : String) : Option (DecAmount × Option String) :=
  let collapsed := jsTrimList (collapseWsAux false raw.data)
  if collapsed.isEmpty then none
  else
    match findAmountMatch collapsed with
    | none => none
    | some m =>
      let amountCandidate := m.filter (fun c => !jsIsWhitespaceChar c)
      let commaIdx := lastIndexOfChar amountCandidate ','
      let dotIdx := lastIndexOfChar amountCandidate '.'
      let normalizedAmount :=
        if commaIdx > dotIdx then
          replaceFirstChar (amountCandidate.filter (fun c => c ≠ '.')) ',' '.'
        else if dotIdx > commaIdx then amountCandidate.filter (fun c => c ≠ ',')
        else replaceFirstChar amountCandidate ',' '.'
      match jsParseFloat normalizedAmount with
      | none => none
      | some amount =>
        some (amount,
          (findCurrencyAux none collapsed).map (fun cs => String.mk (cs.map Char.toUpper)))

/-- Convert an array to a standard list (the `results.push(...value)`
spread). -/
def jsArrToList : JsArr → List JsVal
  | .nil => []
  | .cons v rest => v :: jsArrToList rest

mutual

/-- Shallow embedding of `collectNodes` (wysylkaXml.ts, lines 214-252):
all nodes reached by following the key path, descending into every array
element at any level; a missing key prunes the branch, and any value
(null included) reached at the end of the path is collected. -/
def collectNodes : JsVal → List String → List JsVal
  | current, [] => [current]
  | .arr xs, seg :: rest => collectNodesArr xs (seg :: rest)
  | .obj fs, seg :: rest => collectNodesObj fs seg rest
  | _, _ :: _ => []

/-- `collectNodes` over every element of an array. -/
def collectNodesArr : JsArr → List String → List JsVal
  | .nil, _ => []
  | .cons v vs, path => collectNodes v path ++ collectNodesArr vs path

/-- Property step of `collectNodes`: find the key, then continue. -/
def collectNodesObj : JsObj → String → List String → List JsVal
  | .nil, _, _ => []
  | .cons k v fs, seg, rest =>
    if k = seg then collectNodes v rest else collectNodesObj fs seg rest

end

mutual

/-- Shallow embedding of `collectSupportingDocuments` (wysylkaXml.ts,
lines 254-281): every value stored under a `SupportingDocument` key
anywhere in the tree (arrays spread, nulls dropped); other object and
array values are visited recursively. -/
def collectSupportingDocs : JsVal → List JsVal
  | .obj fs => collectSDObj fs
  | .arr xs => collectSDArr xs
  | _ => []

/-- Entry walk of `collectSupportingDocuments`. -/
def collectSDObj : JsObj → List JsVal
  | .nil => []
  | .cons k v rest =>
    (if k = "SupportingDocument" then
      match v with
      | .arr xs => jsArrToList xs
      | .null => []
      | w => [w]
    else collectSupportingDocs v) ++ collectSDObj rest

/-- Array walk of `collectSupportingDocuments` (array entries have index
keys, never `SupportingDocument`). -/
def collectSDArr : JsArr → List JsVal
  | .nil => []
  | .cons v rest => collectSupportingDocs v ++ collectSDArr rest

end

mutual

/-- Shallow embedding of `getFirstNonEmptyString` (wysylkaXml.ts, lines
560-602): strings trim to non-empty or fail, scalars stringify, arrays
and object values are scanned left to right, a string `#text` slot is
preferred. -/
def getFirstNonEmptyString : JsVal → Option String
  | .null => none
  | .str s =>
    let t := jsTrim s
    if t.length > 0 then some t else none
  | .num n => some (toString n)
  | .bool b => some (jsBoolToString b)
  | .arr xs => gfnesArr xs
  | .obj fs =>
    match lookupField fs "#text" with
    | some (.str s) =>
      let t := jsTrim s
      if t.length > 0 then some t else gfnesObj fs
    | _ => gfnesObj fs

/-- Array scan of `getFirstNonEmptyString`. -/
def gfnesArr : JsArr → Option String
  | .nil => none
  | .cons v rest =>
    match getFirstNonEmptyString v with
    | some s => some s
    | none => gfnesArr rest

/-- Object-value scan of `getFirstNonEmptyString`. -/
def gfnesObj : JsObj → Option String
  | .nil => none
  | .cons _ v rest =>
    match getFirstNonEmptyString v with
    | some s => some s
    | none => gfnesObj rest

end

/-- A property lookup as seen by the `??` chain: JS `null` and a missing
key are both nullish. -/
def nonNullishLookup (fs : JsObj) (k : String) : Option JsVal :=
  match lookupField fs k with
  | some .null => none
  | r => r

/-- The `complementOfInformation ?? ComplementOfInformation ??
COMPLEMENTOFINFORMATION` source of one supporting-document node; a
non-object node is its own source. -/
def complementSourceOf : JsVal → Option JsVal
  | .obj fs =>
    match nonNullishLookup fs "complementOfInformation" with
    | some v => some v
    | none =>
      match nonNullishLookup fs "ComplementOfInformation" with
      | some v => some v
      | none => nonNullishLookup fs "COMPLEMENTOFINFORMATION"
  | v => some v

/-- The parsed amount and currency of one supporting-document node, or
`none` when the node contributes nothing to the sum. -/
def sdParsedComplement (node : JsVal) : Option (DecAmount × Option String) :=
  match complementSourceOf node with
  | none => none
  | some src =>
    match getFirstNonEmptyString src with
    | none => none
    | some complement => parseAmountAndCurrency complement

/-- The loop state of the document-total aggregator. -/
structure SdAccum where
  totalCents : Int
  found : Bool
  currencies : List String
deriving DecidableEq, Repr

/-- `Set.add` followed by insertion-ordered iteration. -/
def insertIfAbsent (s : String) (l : List String) : List String :=
  if s ∈ l then l else l ++ [s]

/-- One iteration of the aggregator loop (wysylkaXml.ts, lines 356-388). -/
def sdStep (acc : SdAccum) (node : JsVal) : SdAccum :=
  match sdParsedComplement node with
  | none => acc
  | some pc =>
    { totalCents := acc.totalCents + jsRoundTimes100 pc.1
      found := true
      currencies :=
        match pc.2 with
        | some cur => insertIfAbsent cur acc.currencies
        | none => acc.currencies }

/-- The three consignment paths scanned by the aggregator. -/
def sdCandidatePaths : List (List String) :=
  [["IE029PL", "CC029C", "Consignment"], ["IE028PL", "CC028C", "Consignment"],
    ["IE045PL", "CC045C", "Consignment"]]

/-- All consignment nodes of the document. -/
def sdConsignments (parsed : JsVal) : List JsVal :=
  (sdCandidatePaths.map (fun p => collectNodes parsed p)).flatten

/-- All qualifying supporting-document nodes of the document. -/
def sdDocumentNodes (parsed : JsVal) : List JsVal :=
  ((sdConsignments parsed).map collectSupportingDocs).flatten

/-- Two-digit zero padding of the cent part (`toFixed(2)`). -/
def pad2 (n : Nat) : String := if n < 10 then "0" ++ toString n else toString n

/-- `formatNumberWithComma(totalCents / 100)`:
`value.toFixed(2).replace(".", ",")`, computed from the integer cent
total (exact for every total within double precision). -/
def formatCents (c : Int) : String :=
  (if c < 0 then "-" else "") ++ toString (c.natAbs / 100) ++ "," ++ pad2 (c.natAbs % 100)

/-- `Array.from(currencies).join("/")`. -/
def joinSlash : List String → String
  | [] => ""
  | [s] => s
  | s :: rest => s ++ "/" ++ joinSlash rest

/-- Shallow embedding of
`aggregateHouseConsignmentSupportingDocumentsSum` (wysylkaXml.ts, lines
323-400). -/
def aggregateHouseConsignmentSupportingDocumentsSum (parsed : JsVal) : Option String :=
  let acc := (sdDocumentNodes parsed).foldl sdStep ⟨0, false, []⟩
  if acc.found then
    let currencyLabel :=
      if acc.currencies.length > 0 then " " ++ joinSlash acc.currencies else ""
    some (jsTrim (formatCents acc.totalCents ++ currencyLabel))
  else none

/-- The `/^\d{4}-\d{2}-\d{2}$/` shape test. -/
def isoDateShape (s : String) : Bool :=
  match s.data with
  | [a, b, c, d, '-', e, f, '-', g, h] =>
    a.isDigit && b.isDigit && c.isDigit && d.isDigit && e.isDigit && f.isDigit &&
      g.isDigit && h.isDigit
  | _ => false

/-- The fixed path list of the first-valid-date aggregator. -/
def transitReleaseDatePaths : List String :=
  ["IE029PL.CC029C.TransitOperation.releaseDate",
    "IE028PL.CC028C.TransitOperation.releaseDate",
    "IE045PL.CC045C.TransitOperation.releaseDate"]

/-- The path scan of `aggregateTransitOperationReleaseDateValue`
(wysylkaXml.ts, lines 410-426): skip empty candidates, return the first
trimmed value of ISO date shape. -/
def aggregateTransitDateGo (parsed : JsVal) : List String → Option String
  | [] => none
  | p :: rest =>
    match getValueAtPath parsed p with
    | .ok (some c) =>
      if c.length = 0 then aggregateTransitDateGo parsed rest
      else
        let t := jsTrim c
        if isoDateShape t then some t else aggregateTransitDateGo parsed rest
    | _ => aggregateTransitDateGo parsed rest

/-- Shallow embedding of `aggregateTransitOperationReleaseDateValue`. -/
def aggregateTransitOperationReleaseDateValue (parsed : JsVal) : Option String :=
  aggregateTransitDateGo parsed transitReleaseDatePaths

/-- The named aggregators of `runFieldAggregator` (wysylkaXml.ts, lines
428-440). -/
inductive WysylkaXmlFieldAggregator where
  | houseConsignmentSupportingDocumentsSum : WysylkaXmlFieldAggregator
  | transitOperationReleaseDateValue : WysylkaXmlFieldAggregator
deriving DecidableEq, Repr

/-- Dispatch of `runFieldAggregator`. -/
def runFieldAggregator : WysylkaXmlFieldAggregator → JsVal → Option String
  | .houseConsignmentSupportingDocumentsSum, parsed =>
    aggregateHouseConsignmentSupportingDocumentsSum parsed
  | .transitOperationReleaseDateValue, parsed =>
    aggregateTransitOperationReleaseDateValue parsed

/-- A field descriptor (src/config/wysylkiXmlConfig.ts).  `regexTest` is
the `test` of the successfully compiled validation pattern, an abstract
predicate since the JS regex engine is outside this repository; `none`
models both an absent `regex` and an invalid pattern (for which
`resolveRegex` returns null), both of which skip validation. -/
structure WysylkaXmlFieldConfig where
  name : String
  paths : List String
  regexTest : Option (String → Bool)
  aggregate : Option WysylkaXmlFieldAggregator

/-- The candidate-path loop of `extractFieldsFromXml` (wysylkaXml.ts,
lines 491-530): paths strictly in list order; a path whose resolution
throws or yields null is skipped, the resolved value is trimmed and
skipped if empty, a value failing the regex is skipped (logged), the
first surviving value wins. -/
def resolvePathCandidates (regexTest : Option (String → Bool)) (parsed : JsVal) :
    List String → Option String
  | [] => none
  | p :: rest =>
    match getValueAtPath parsed p with
    | .error _ => resolvePathCandidates regexTest parsed rest
    | .ok none => resolvePathCandidates regexTest parsed rest
    | .ok (some raw) =>
      let candidate := jsTrim raw
      if candidate.length = 0 then resolvePathCandidates regexTest parsed rest
      else
        match regexTest with
        | some test =>
          if test candidate then some candidate
          else resolvePathCandidates regexTest parsed rest
        | none => some candidate

/-- The per-field resolution of `extractFieldsFromXml` (wysylkaXml.ts,
lines 473-533): a configured aggregator whose non-empty result wins
outright; otherwise the candidate paths are consulted. -/
def resolveField (field : WysylkaXmlFieldConfig) (parsed : JsVal) : Option String :=
  let aggResolved : Option String :=
    match field.aggregate with
    | some ag =>
      match runFieldAggregator ag parsed with
      | some s => if (jsTrim s).length > 0 then some s else none
      | none => none
    | none => none
  match aggResolved with
  | some s => some s
  | none => resolvePathCandidates field.regexTest parsed field.paths

/-- The field loop of `extractFieldsFromXml`: one output entry per
descriptor, `none` for a field with no successful candidate. -/
def extractFieldsFromParsed (parsed : JsVal) (fields : List WysylkaXmlFieldConfig) :
    List (String × Option String) :=
  fields.map (fun f => (f.name, resolveField f parsed))

theorem sdFold_found : ∀ (nodes : List JsVal) (acc : SdAccum),
    (nodes.foldl sdStep acc).found =
      (acc.found || nodes.any (fun n => (sdParsedComplement n).isSome)) := by
  intro nodes
  induction nodes with
  | nil => intro acc; simp
  | cons n ns ih =>
    intro acc
    simp only [List.foldl_cons, List.any_cons]
    cases h : sdParsedComplement n with
    | none => simp [sdStep, h, ih]
    | some pc => simp [sdStep, h, ih]

theorem sdFold_cents : ∀ (nodes : List JsVal) (acc : SdAccum),
    (nodes.foldl sdStep acc).totalCents =
      acc.totalCents +
        ((nodes.filterMap sdParsedComplement).map (fun pc => jsRoundTimes100 pc.1)).sum := by
  intro nodes
  induction nodes with
  | nil => intro acc; simp
  | cons n ns ih =>
    intro acc
    simp only [List.foldl_cons, List.filterMap_cons]
    cases h : sdParsedComplement n with
    | none => simp [sdStep, h, ih]
    | some pc =>
      simp only [sdStep, h, ih, List.map_cons, List.sum_cons]
      omega

theorem sdFold_currencies : ∀ (nodes : List JsVal) (acc : SdAccum),
    (nodes.foldl sdStep acc).currencies =
      ((nodes.filterMap sdParsedComplement).filterMap (fun pc => pc.2)).foldl
        (fun l cur => insertIfAbsent cur l) acc.currencies := by
  intro nodes
  induction nodes with
  | nil => intro acc; simp
  | cons n ns ih =>
    intro acc
    simp only [List.foldl_cons, List.filterMap_cons]
    cases h : sdParsedComplement n with
    | none => simp [sdStep, h, ih]
    | some pc =>
      cases hc : pc.2 with
      | none => simp [sdStep, h, hc, ih]
      | some cur => simp [sdStep, h, hc, ih]

theorem sdAnyIsSome_iff_filterMap (nodes : List JsVal) :
    (nodes.any (fun n => (sdParsedComplement n).isSome) = false) ↔
      nodes.filterMap sdParsedComplement = [] := by
  induction nodes with
  | nil => simp
  | cons n ns ih =>
    cases h : sdParsedComplement n with
    | none => simp only [List.any_cons, h, List.filterMap_cons]; simp [ih]
    | some pc => simp [h]

/-- The parsed document of §8's aggregator example: one consignment with
two supporting documents whose complements are "10,50 EUR" and
"5.25 EUR". -/
def c7Tree : JsVal :=
  .obj (.cons "IE029PL" (.obj (.cons "CC029C" (.obj (.cons "Consignment" (.obj
    (.cons "SupportingDocument" (.arr
      (.cons (.obj (.cons "complementOfInformation" (.str "10,50 EUR") .nil))
      (.cons (.obj (.cons "complementOfInformation" (.str "5.25 EUR") .nil))
      .nil))) .nil)) .nil)) .nil)) .nil)

/-- C7: the document-total aggregator sums the monetary complement texts
of all qualifying supporting-document nodes in integer-cent arithmetic
(comma or dot separators and an embedded 3-letter currency code are
tolerated) and formats the total with a comma decimal separator followed
by the observed currency codes joined by "/"; over complements
"10,50 EUR" and "5.25 EUR" it returns "15,75 EUR", and it returns null
exactly when no node yields a parseable amount. -/
theorem C7_document_total_aggregator :
    aggregateHouseConsignmentSupportingDocumentsSum c7Tree = some "15,75 EUR" ∧
    (∀ parsed : JsVal,
      aggregateHouseConsignmentSupportingDocumentsSum parsed =
        (let pcs := (sdDocumentNodes parsed).filterMap sdParsedComplement
        if pcs = [] then none
        else
          let cents := (pcs.map (fun pc => jsRoundTimes100 pc.1)).sum
          let curs := (pcs.filterMap (fun pc => pc.2)).foldl
            (fun l cur => insertIfAbsent cur l) []
          some (jsTrim (formatCents cents ++
            (if curs.length > 0 then " " ++ joinSlash curs else ""))))) ∧
    (∀ parsed : JsVal,
      aggregateHouseConsignmentSupportingDocumentsSum parsed = none ↔
        ∀ node ∈ sdDocumentNodes parsed, sdParsedComplement node = none) := by
  refine ⟨rfl, ?_, ?_⟩
  · intro parsed
    have hf := sdFold_found (sdDocumentNodes parsed) ⟨0, false, []⟩
    have hc := sdFold_cents (sdDocumentNodes parsed) ⟨0, false, []⟩
    have hcur := sdFold_currencies (sdDocumentNodes parsed) ⟨0, false, []⟩
    simp only [aggregateHouseConsignmentSupportingDocumentsSum]
    cases hany : (sdDocumentNodes parsed).any (fun n => (sdParsedComplement n).isSome) with
    | false =>
      have hnil := (sdAnyIsSome_iff_filterMap (sdDocumentNodes parsed)).mp hany
      rw [hf, hany]
      simp [hnil]
    | true =>
      have hnil : ¬ (sdDocumentNodes parsed).filterMap sdParsedComplement = [] := by
        intro hcontra
        have := (sdAnyIsSome_iff_filterMap (sdDocumentNodes parsed)).mpr hcontra
        rw [this] at hany
        cases hany
      rw [hf, hany]
      simp only [Bool.or_true, if_true, hnil, if_false]
      rw [hc, hcur]
      simp
  · intro parsed
    have hf := sdFold_found (sdDocumentNodes parsed) ⟨0, false, []⟩
    simp only [aggregateHouseConsignmentSupportingDocumentsSum]
    cases hany : (sdDocumentNodes parsed).any (fun n => (sdParsedComplement n).isSome) with
    | false =>
      rw [hf, hany]
      simp only [Bool.or_false, if_false]
      constructor
      · intro _ node hmem
        have := (sdAnyIsSome_iff_filterMap (sdDocumentNodes parsed)).mp hany
        exact (List.filterMap_eq_nil_iff.mp this) node hmem
      · intro _; rfl
    | true =>
      rw [hf, hany]
      simp only [Bool.or_true, if_true]
      constructor
      · intro hcontra; cases hcontra
      · intro hall
        have : (sdDocumentNodes parsed).filterMap sdParsedComplement = [] :=
          List.filterMap_eq_nil_iff.mpr hall
        have := (sdAnyIsSome_iff_filterMap (sdDocumentNodes parsed)).mpr this
        rw [this] at hany
        cases hany

/-- C3: in the field loop of `extractFieldsFromXml`, an aggregator with
a non-empty result is the field's value and no candidate path is
consulted (the result does not depend on the path list); a field with no
aggregator, one whose aggregator returns null, or one whose aggregator
result trims to the empty string falls through to the candidate paths,
which are tried strictly in list order: a path resolving to null is
skipped, a resolved value is trimmed and skipped if empty, a trimmed
value failing the field's regex is skipped in favour of later paths, the
first non-empty regex-valid value wins, and an exhausted path list
yields null. -/
theorem C3_field_resolution :
    (∀ (field : WysylkaXmlFieldConfig) (parsed : JsVal)
        (ag : WysylkaXmlFieldAggregator) (s : String),
      field.aggregate = some ag → runFieldAggregator ag parsed = some s →
      (jsTrim s).length > 0 →
      ∀ ps : List String, resolveField { field with paths := ps } parsed = some s) ∧
    (∀ (field : WysylkaXmlFieldConfig) (parsed : JsVal), field.aggregate = none →
      resolveField field parsed = resolvePathCandidates field.regexTest parsed field.paths) ∧
    (∀ (field : WysylkaXmlFieldConfig) (parsed : JsVal) (ag : WysylkaXmlFieldAggregator),
      field.aggregate = some ag → runFieldAggregator ag parsed = none →
      resolveField field parsed = resolvePathCandidates field.regexTest parsed field.paths) ∧
    (∀ (field : WysylkaXmlFieldConfig) (parsed : JsVal)
        (ag : WysylkaXmlFieldAggregator) (s : String),
      field.aggregate = some ag → runFieldAggregator ag parsed = some s →
      (jsTrim s).length = 0 →
      resolveField field parsed = resolvePathCandidates field.regexTest parsed field.paths) ∧
    (∀ (rt : Option (String → Bool)) (parsed : JsVal) (p : String) (rest : List String),
      getValueAtPath parsed p = .ok none →
      resolvePathCandidates rt parsed (p :: rest) = resolvePathCandidates rt parsed rest) ∧
    (∀ (rt : Option (String → Bool)) (parsed : JsVal) (p : String) (rest : List String)
        (raw : String),
      getValueAtPath parsed p = .ok (some raw) → (jsTrim raw).length = 0 →
      resolvePathCandidates rt parsed (p :: rest) = resolvePathCandidates rt parsed rest) ∧
    (∀ (test : String → Bool) (parsed : JsVal) (p : String) (rest : List String)
        (raw : String),
      getValueAtPath parsed p = .ok (some raw) → (jsTrim raw).length > 0 →
      test (jsTrim raw) = false →
      resolvePathCandidates (some test) parsed (p :: rest) =
        resolvePathCandidates (some test) parsed rest) ∧
    (∀ (test : String → Bool) (parsed : JsVal) (p : String) (rest : List String)
        (raw : String),
      getValueAtPath parsed p = .ok (some raw) → (jsTrim raw).length > 0 →
      test (jsTrim raw) = true →
      resolvePathCandidates (some test) parsed (p :: rest) = some (jsTrim raw)) ∧
    (∀ (rt : Option (String → Bool)) (parsed : JsVal),
      resolvePathCandidates rt parsed [] = none) := by
  refine ⟨?_, ?_, ?_, ?_, ?_, ?_, ?_, ?_, ?_⟩
  · intro field parsed ag s hag hrun ht ps
    simp only [resolveField, hag, hrun, ht, if_pos]
  · intro field parsed hag
    simp only [resolveField, hag]
  · intro field parsed ag hag hrun
    simp only [resolveField, hag, hrun]
  · intro field parsed ag s hag hrun ht
    simp [resolveField, hag, hrun, ht]
  · intro rt parsed p rest h
    simp only [resolvePathCandidates, h]
  · intro rt parsed p rest raw h ht
    simp only [resolvePathCandidates, h, ht, if_pos]
  · intro test parsed p rest raw h ht htest
    have hne : ¬ (jsTrim raw).length = 0 := by omega
    simp [resolvePathCandidates, h, hne, htest]
  · intro test parsed p rest raw h ht htest
    have hne : ¬ (jsTrim raw).length = 0 := by omega
    simp [resolvePathCandidates, h, hne, htest]
  · intro rt parsed
    rfl

/-- The §8 fall-through example: paths `[p1, p2]` with a regex that
`p1`'s value fails. -/
def c3Tree : JsVal := .obj (.cons "p1" (.str "V1") (.cons "p2" (.str "V2") .nil))

/-- The compiled regex test of the example: accepts only "V2". -/
def c3Test (s : String) : Bool := s = "V2"

/-- Witness for C3: with paths `["p1", "p2"]` and a regex failing
`p1`'s value, resolution falls through and returns `p2`'s value, both
without an aggregator and with the release-date aggregator (which finds
none of its paths in `c3Tree` and returns null). -/
theorem C3_field_resolution_witness :
    resolveField ⟨"f", ["p1", "p2"], some c3Test, none⟩ c3Tree = some "V2" ∧
    resolveField ⟨"f", ["p1", "p2"], some c3Test, some .transitOperationReleaseDateValue⟩
      c3Tree = some "V2" := by
  have h7 := C3_field_resolution.2.2.2.2.2.2.1 c3Test c3Tree "p1" ["p2"] "V1" rfl
    (by decide) (by decide)
  have h8 := C3_field_resolution.2.2.2.2.2.2.2.1 c3Test c3Tree "p2" [] "V2" rfl
    (by decide) (by decide)
  constructor
  · have h2 := C3_field_resolution.2.1 ⟨"f", ["p1", "p2"], some c3Test, none⟩ c3Tree rfl
    rw [h2]
    simp only at h7 h8 ⊢
    rw [h7, h8]
    rfl
  · have h3 := C3_field_resolution.2.2.1
      ⟨"f", ["p1", "p2"], some c3Test, some .transitOperationReleaseDateValue⟩ c3Tree
      .transitOperationReleaseDateValue rfl (by decide)
    rw [h3]
    simp only at h7 h8 ⊢
    rw [h7, h8]
    rfl

/-- Witness for C7: the concrete §8 example via the theorem. -/
theorem C7_document_total_aggregator_witness :
    aggregateHouseConsignmentSupportingDocumentsSum c7Tree = some "15,75 EUR" :=
  C7_document_total_aggregator.1

/-- Witness for C10 amended: a lone UTF-16BE byte-order mark decodes to
the empty string, so with every candidate failing the decoder throws. -/
theorem C10_amended_witness :
    decodeZlibBuffer zlibAllFail (some [254, 255]) "c" = .error ⟨"c", 2⟩ :=
  (C10_amended zlibAllFail [254, 255] "c").mpr ⟨by decide, rfl, rfl, rfl, by decide⟩

/-! ## The attachment pool (src/service/firebird/connection.ts)

`acquire()` is an async method: it suspends at
`await this.destroyLease(lease)` inside the drain loop and at
`await this.createLease()` (the `client.connect` call) between the
`total < maxSize` check and `this.total += 1`.  The single-threaded
event loop serializes only the synchronous segments between awaits, so
the pool is modelled as a transition system over the pool state
together with the program counters of the in-flight `acquire()` calls,
one transition per synchronous segment. -/

/-- A lease: a client handle paired with an attachment.  The validity
flags model `client.isValid` / `attachment.isValid`. -/
structure Lease where
  id : Nat
  clientValid : Bool
  attachmentValid : Bool
deriving DecidableEq, Repr

/-- `isLeaseValid` (connection.ts, lines 155-157). -/
def isLeaseValid (l : Lease) : Bool := l.attachmentValid && l.clientValid

/-- The mutable state of `FirebirdAttachmentPool`.  The `available`
stack stores the JS array with its top (the `pop` end) first; `pending`
is the FIFO resolver queue, holding the task ids of suspended
acquirers (push at the back, `shift` from the front); `nextId` supplies
fresh lease identities for `createLease`. -/
structure PoolState where
  maxSize : Nat
  available : List Lease
  pending : List Nat
  total : Nat
  closed : Bool
  nextId : Nat
deriving DecidableEq, Repr

/-- `new FirebirdAttachmentPool(N)`: `maxSize = Math.max(1, N)`, no
leases, nothing pending, open. -/
def initPoolState (n : Nat) : PoolState := ⟨max 1 n, [], [], 0, false, 0⟩

/-- The program counter of one in-flight `acquire()` call. -/
inductive AcqTask where
  | notStarted : AcqTask
  | destroying : AcqTask
  | connecting : AcqTask
  | waiting : AcqTask
  | granted : Lease → AcqTask
  | failed : AcqTask
deriving DecidableEq, Repr

/-- One synchronous run of the drain-loop body of `acquire()` up to the
next await or to the capacity branch (connection.ts, lines 105-126):
pop the top available lease, returning it when valid, or suspending at
`await this.destroyLease(lease)` when invalid (`.destroying`); with the
stack empty, pass the `total < maxSize` check — which leaves `total`
unchanged, the increment only happening after `await this.createLease()`
completes (`.connecting`) — or enqueue the caller (`.waiting`). -/
def drainSegment (st : PoolState) (i : Nat) : PoolState × AcqTask :=
  match st.available with
  | l :: rest =>
    if isLeaseValid l then ({ st with available := rest }, .granted l)
    else ({ st with available := rest }, .destroying)
  | [] =>
    if st.total < st.maxSize then (st, .connecting)
    else ({ st with pending := st.pending ++ [i] }, .waiting)

/-- The synchronous prefix of `acquire()`: the closed check (lines
101-103), then the drain loop. -/
def startSegment (st : PoolState) (i : Nat) : PoolState × AcqTask :=
  if st.closed then (st, .failed) else drainSegment st i

/-- What one `release(lease, recycle)` call does.  A hand-off names the
resumed waiter. -/
inductive ReleaseResult where
  | destroyed : ReleaseResult
  | handedToWaiter : Nat → ReleaseResult
  | recycled : ReleaseResult
deriving DecidableEq, Repr

/-- Shallow embedding of `FirebirdAttachmentPool.release`
(connection.ts, lines 129-142): destroy when closed, not recycling, or
invalid; else hand the lease to the longest waiter (`pending.shift()`);
else push it back on the available stack.  The destroy path's only
pool-visible effect, the `total` decrement inside `destroyLease`,
happens after that helper's awaits; since the pool state is untouched
in between, the path is modelled at its completion point. -/
def release (st : PoolState) (lease : Lease) (recycle : Bool) : ReleaseResult × PoolState :=
  if st.closed || !recycle || !isLeaseValid lease then
    (.destroyed, { st with total := st.total - 1 })
  else
    match st.pending with
    | i :: rest => (.handedToWaiter i, { st with pending := rest })
    | [] => (.recycled, { st with available := lease :: st.available })

/-- A pool together with its in-flight acquirers. -/
structure PoolSystem where
  pool : PoolState
  tasks : List AcqTask
deriving DecidableEq, Repr

/-- One event-loop turn: the synchronous segment of one acquirer, the
resumption of one awaited helper, or one release call, in any order —
exactly the interleavings the single-threaded event loop allows. -/
inductive SysStep : PoolSystem → PoolSystem → Prop where
  | start (s : PoolSystem) (i : Nat) :
      s.tasks.get? i = some .notStarted →
      SysStep s ⟨(startSegment s.pool i).1, s.tasks.set i (startSegment s.pool i).2⟩
  | finishDestroy (s : PoolSystem) (i : Nat) :
      s.tasks.get? i = some .destroying →
      SysStep s
        ⟨(drainSegment { s.pool with total := s.pool.total - 1 } i).1,
          s.tasks.set i (drainSegment { s.pool with total := s.pool.total - 1 } i).2⟩
  | finishConnect (s : PoolSystem) (i : Nat) :
      s.tasks.get? i = some .connecting →
      SysStep s
        ⟨{ s.pool with total := s.pool.total + 1, nextId := s.pool.nextId + 1 },
          s.tasks.set i (.granted ⟨s.pool.nextId, true, true⟩)⟩
  | releaseDestroyed (s : PoolSystem) (l : Lease) (r : Bool) (st' : PoolState) :
      release s.pool l r = (.destroyed, st') →
      SysStep s ⟨st', s.tasks⟩
  | releaseHanded (s : PoolSystem) (l : Lease) (r : Bool) (i : Nat) (st' : PoolState) :
      release s.pool l r = (.handedToWaiter i, st') →
      s.tasks.get? i = some .waiting →
      SysStep s ⟨st', s.tasks.set i (.granted l)⟩
  | releaseRecycled (s : PoolSystem) (l : Lease) (r : Bool) (st' : PoolState) :
      release s.pool l r = (.recycled, st') →
      SysStep s ⟨st', s.tasks⟩

/-- The capacity check reserves nothing: an acquirer that passes it
suspends at `client.connect` with `total` (and the rest of the pool)
unchanged, so a second acquirer scheduled before the connect completes
sees the same `total`. -/
theorem startSegment_reserves_nothing (st : PoolState) (i : Nat)
    (hcl : st.closed = false) (hav : st.available = [])
    (hcap : st.total < st.maxSize) :
    startSegment st i = (st, .connecting) := by
  simp [startSegment, drainSegment, hcl, hav, hcap]

/-- C5 (the code contradicts the claimed invariant): on a fresh pool of
capacity 1, two concurrent `acquire()` calls whose synchronous prefixes
both run before either `client.connect` completes each pass the
`total < maxSize` check; both connects then complete, so two leases
exist (`total = 2 > maxSize = 1`), the pending queue stays empty, and
neither caller suspends — against the claim that at most N leases ever
exist and that the extra acquirer suspends until a release. -/
theorem C5_pool_overshoot :
    ∃ s : PoolSystem,
      Relation.ReflTransGen SysStep
        ⟨initPoolState 1, [.notStarted, .notStarted]⟩ s ∧
      s.pool.maxSize = 1 ∧ s.pool.total = 2 ∧ s.pool.pending = [] ∧
      s.tasks = [.granted ⟨0, true, true⟩, .granted ⟨1, true, true⟩] := by
  refine ⟨⟨⟨1, [], [], 2, false, 2⟩,
    [.granted ⟨0, true, true⟩, .granted ⟨1, true, true⟩]⟩, ?_, rfl, rfl, rfl, rfl⟩
  have h1 : SysStep ⟨initPoolState 1, [.notStarted, .notStarted]⟩
      ⟨⟨1, [], [], 0, false, 0⟩, [.connecting, .notStarted]⟩ :=
    SysStep.start ⟨initPoolState 1, [.notStarted, .notStarted]⟩ 0 rfl
  have h2 : SysStep ⟨⟨1, [], [], 0, false, 0⟩, [.connecting, .notStarted]⟩
      ⟨⟨1, [], [], 0, false, 0⟩, [.connecting, .connecting]⟩ :=
    SysStep.start ⟨⟨1, [], [], 0, false, 0⟩, [.connecting, .notStarted]⟩ 1 rfl
  have h3 : SysStep ⟨⟨1, [], [], 0, false, 0⟩, [.connecting, .connecting]⟩
      ⟨⟨1, [], [], 1, false, 1⟩, [.granted ⟨0, true, true⟩, .connecting]⟩ :=
    SysStep.finishConnect ⟨⟨1, [], [], 0, false, 0⟩, [.connecting, .connecting]⟩ 0 rfl
  have h4 : SysStep ⟨⟨1, [], [], 1, false, 1⟩, [.granted ⟨0, true, true⟩, .connecting]⟩
      ⟨⟨1, [], [], 2, false, 2⟩, [.granted ⟨0, true, true⟩, .granted ⟨1, true, true⟩]⟩ :=
    SysStep.finishConnect ⟨⟨1, [], [], 1, false, 1⟩,
      [.granted ⟨0, true, true⟩, .connecting]⟩ 1 rfl
  exact Relation.ReflTransGen.tail
    (Relation.ReflTransGen.tail
      (Relation.ReflTransGen.tail (Relation.ReflTransGen.tail Relation.ReflTransGen.refl h1) h2)
      h3) h4
/-! ## MRN preference (src/service/firebird/rejestrRepository.ts) -/

/-- `/^(\d{2})[A-Z]{2}/i.exec(mrn.trim())`: the two-digit year code of
an MRN, when the trimmed value starts with two digits followed by two
ASCII letters. -/
def extractMrnYearCode (mrn : String) : Option String :=
  match (jsTrim mrn).data with
  | c0 :: c1 :: c2 :: c3 :: _ =>
    if c0.isDigit && c1.isDigit && isAsciiLetterChar c2 && isAsciiLetterChar c3 then
      some (String.mk [c0, c1])
    else none
  | _ => none

/-- `matchesExpectedMrnYear` (rejestrRepository.ts, lines 163-164). -/
def matchesExpectedMrnYear (mrn : String) (expectedYearSuffix : String) : Bool :=
  decide (extractMrnYearCode mrn = some expectedYearSuffix)

/-- Shallow embedding of `selectPreferredMrn` (rejestrRepository.ts,
lines 166-187): order the two candidates by the preference flag, take
the first non-null non-empty candidate with the expected year code, else
the first non-null non-empty candidate, else null. -/
def selectPreferredMrn (preferWysylkiMrn : Bool) (expectedYearSuffix : String)
    (sourceMrn resolvedMrn : Option String) : Option String :=
  let candidates : List (Option String) :=
    if preferWysylkiMrn then [resolvedMrn, sourceMrn] else [sourceMrn, resolvedMrn]
  match candidates.find? (fun c =>
    match c with
    | some s => decide (0 < s.length) && matchesExpectedMrnYear s expectedYearSuffix
    | none => false) with
  | some c => c
  | none =>
    (candidates.find? (fun c =>
      match c with
      | some s => decide (0 < s.length)
      | none => false)).getD none

/-- The selection rule as claim C6 words it ("the first non-null
candidate"), for comparison with the code's `selectPreferredMrn`. -/
def selectPreferredMrnSpec (preferWysylkiMrn : Bool) (expectedYearSuffix : String)
    (sourceMrn resolvedMrn : Option String) : Option String :=
  let candidates : List (Option String) :=
    if preferWysylkiMrn then [resolvedMrn, sourceMrn] else [sourceMrn, resolvedMrn]
  match candidates.find? (fun c =>
    match c with
    | some s => matchesExpectedMrnYear s expectedYearSuffix
    | none => false) with
  | some c => c
  | none => (candidates.find? (fun c => c.isSome)).getD none

/-- The call site (rejestrRepository.ts, lines 427-433): a supplement
declaration (`sadueSupplementId !== null`) forces the
resolved-from-transmissions ordering via `preferWysylkiMrn ||
forceWysylkiForSupplement`. -/
def selectMrnForRejestrRow (preferWysylkiMrn : Bool) (sadueSupplementId : Option Int)
    (expectedYearSuffix : String) (sourceMrn resolvedMrn : Option String) : Option String :=
  selectPreferredMrn (preferWysylkiMrn || decide (sadueSupplementId ≠ none))
    expectedYearSuffix sourceMrn resolvedMrn

/-- `normalizedDate.slice(2, 4)`: the expected two-digit year suffix. -/
def yearSuffixOfDate (s : String) : String := String.mk ((s.data.drop 2).take 2)

theorem find?_congrOn {α : Type} {p q : α → Bool} :
    ∀ l : List α, (∀ x ∈ l, p x = q x) → l.find? p = l.find? q := by
  intro l
  induction l with
  | nil => intro _; rfl
  | cons a t ih =>
    intro h
    have ha := h a (by simp)
    simp only [List.find?]
    rw [ha]
    cases hq : q a with
    | true => rfl
    | false => exact ih (fun x hx => h x (List.mem_cons_of_mem _ hx))

/-- C6: with non-empty candidate strings (which is what the call sites
supply: `coerceToString` never yields an empty string), the selected MRN
is the first candidate, in the order determined by the preference flag,
carrying the expected two-digit year code, else the first non-null
candidate in that order; a supplement declaration forces the
resolved-from-transmissions ordering regardless of the flag; and for
query date 2025-01-03 (year suffix "25") a candidate beginning "25" is
preferred over one beginning "24" in either candidate order and under
either flag value. -/
theorem C6_mrn_preference :
    (∀ (flag : Bool) (y : String) (src res : Option String),
      (∀ s, src = some s → 0 < s.length) → (∀ s, res = some s → 0 < s.length) →
      selectPreferredMrn flag y src res = selectPreferredMrnSpec flag y src res) ∧
    (∀ (flag : Bool) (supp : Int) (y : String) (src res : Option String),
      selectMrnForRejestrRow flag (some supp) y src res = selectPreferredMrn true y src res) ∧
    (yearSuffixOfDate "2025-01-03" = "25" ∧
      ∀ flag : Bool,
        selectPreferredMrn flag "25" (some "24PL1234") (some "25PL5678") = some "25PL5678" ∧
        selectPreferredMrn flag "25" (some "25PL5678") (some "24PL1234") = some "25PL5678") := by
  refine ⟨?_, ?_, ?_, ?_⟩
  · intro flag y src res hsrc hres
    have hmem : ∀ c ∈ (if flag then [res, src] else [src, res]),
        ∀ s, c = some s → 0 < s.length := by
      intro c hc
      cases flag <;> simp at hc <;> rcases hc with rfl | rfl <;> first
        | exact hsrc
        | exact hres
    simp only [selectPreferredMrn, selectPreferredMrnSpec]
    have h1 : (if flag then [res, src] else [src, res]).find? (fun c =>
        match c with
        | some s => decide (0 < s.length) && matchesExpectedMrnYear s y
        | none => false) =
        (if flag then [res, src] else [src, res]).find? (fun c =>
        match c with
        | some s => matchesExpectedMrnYear s y
        | none => false) := by
      apply find?_congrOn
      intro c hc
      match c with
      | none => rfl
      | some s =>
        have hlen := hmem (some s) hc s rfl
        simp [hlen]
    have h2 : (if flag then [res, src] else [src, res]).find? (fun c =>
        match c with
        | some s => decide (0 < s.length)
        | none => false) =
        (if flag then [res, src] else [src, res]).find? (fun c => c.isSome) := by
      apply find?_congrOn
      intro c hc
      match c with
      | none => rfl
      | some s =>
        have hlen := hmem (some s) hc s rfl
        simp [hlen]
    rw [h1, h2]
  · intro flag supp y src res
    simp [selectMrnForRejestrRow]
  · rfl
  · intro flag
    cases flag <;> exact ⟨rfl, rfl⟩

/-- Witness for C6: the refinement at concrete non-empty candidates. -/
theorem C6_mrn_preference_witness :
    selectPreferredMrn false "25" (some "24PL1234") (some "25PL5678") =
      selectPreferredMrnSpec false "25" (some "24PL1234") (some "25PL5678") :=
  C6_mrn_preference.1 false "25" (some "24PL1234") (some "25PL5678")
    (by intro s h; cases h; decide) (by intro s h; cases h; decide)

/-! ## Query input validation (src/service/firebird/wysylkiRepository.ts) -/

/-- The observable store interactions of a fetch:
`withFirebirdAttachment` acquiring a pool lease, `startTransaction`, and
`executeQuery`.  A fetch model returns the events it performed together
with its outcome; a validation failure throws before any event. -/
inductive StoreEvent where
  | acquireLease : StoreEvent
  | startTransaction : StoreEvent
  | executeSql : StoreEvent
deriving DecidableEq, Repr

/-- A positional SQL parameter. -/
inductive QueryParam where
  | str : String → QueryParam
  | date : Nat → Nat → Nat → QueryParam
deriving DecidableEq, Repr

/-- The SQL a fetch prepares: WHERE conditions, parameters, and the
`SELECT FIRST` row limit. -/
structure PreparedQuery where
  conditions : List String
  parameters : List QueryParam
  firstLimit : Option Nat
deriving DecidableEq, Repr

/-- `FetchWysylkiByMrnOptions` / `FetchWysylkiByDateOptions`.  `limit`
is `none` when absent or not a finite JS number; a fractional limit is
pre-truncated (`Math.trunc`). -/
structure FetchWysylkiOptions where
  fileCode : Option String
  limit : Option Int
  preferXml : Bool
  includeDocumentXml : Option Bool
  includeResponseXml : Option Bool
deriving Repr

/-- `buildQueryConditions` (wysylkiRepository.ts, lines 22-41). -/
def buildQueryConditions (normalizedMrn normalizedFileCode : String) (preferXml : Bool) :
    List String × List QueryParam :=
  let base : List String × List QueryParam :=
    (["r.NRMRNDOK STARTING WITH ?"], [.str normalizedMrn])
  let withFile :=
    if 0 < normalizedFileCode.length then
      (base.1 ++ ["r.NAZWAPLIKU CONTAINING ?"], base.2 ++ [.str normalizedFileCode])
    else base
  if preferXml then
    (withFile.1 ++ ["UPPER(r.NAZWAPLIKU) LIKE ?"], withFile.2 ++ [.str "%.XML"])
  else withFile

/-- `(y % 4 == 0 && y % 100 != 0) || y % 400 == 0`. -/
def isLeapYear (y : Nat) : Bool :=
  (decide (y % 4 = 0) && decide (y % 100 ≠ 0)) || decide (y % 400 = 0)

/-- Days in a Gregorian month. -/
def daysInMonth (y m : Nat) : Nat :=
  if m = 1 ∨ m = 3 ∨ m = 5 ∨ m = 7 ∨ m = 8 ∨ m = 10 ∨ m = 12 then 31
  else if m = 4 ∨ m = 6 ∨ m = 9 ∨ m = 11 then 30
  else if m = 2 then (if isLeapYear y then 29 else 28)
  else 0

/-- The `Date.UTC(year, month - 1, day)` round-trip check of
`parseIsoDateOnly`, modelled closed-form: `Date.UTC` normalizes any
out-of-range month or day into neighbouring months/years (so the
`getUTCFullYear/Month/Date` read-back then disagrees with the input),
and a two-digit-era year 0-99 is interpreted as 1900+year (so any
four-digit input below 0100 also fails the read-back).  The read-back
therefore agrees with the parsed components exactly when the year is at
least 100 and the month and day are within Gregorian range. -/
def validUtcRoundTrip (y m d : Nat) : Bool :=
  decide (100 ≤ y) && decide (1 ≤ m) && decide (m ≤ 12) && decide (1 ≤ d) &&
    decide (d ≤ daysInMonth y m)

/-- The three capture groups of `^(\d{4})-(\d{2})-(\d{2})$`, parsed as
numbers (shape not yet checked). -/
def isoComponents (s : String) : Option (Nat × Nat × Nat) :=
  match s.data with
  | [y1, y2, y3, y4, '-', m1, m2, '-', d1, d2] =>
    some (digitsToNat [y1, y2, y3, y4], digitsToNat [m1, m2], digitsToNat [d1, d2])
  | _ => none

/-- Shallow embedding of `parseIsoDateOnly` (wysylkiRepository.ts, lines
164-189): the regex shape check, numeric parse, and the `Date.UTC`
round-trip calendar check; failures throw (`Except.error`). -/
def parseIsoDateOnly (value : String) : Except String (Nat × Nat × Nat) :=
  if isoDateShape value then
    match isoComponents value with
    | some (y, m, d) =>
      if validUtcRoundTrip y m d then .ok (y, m, d)
      else .error "Invalid calendar date. Please verify the provided value."
    | none => .error "Invalid date format. Expected YYYY-MM-DD."
  else .error "Invalid date format. Expected YYYY-MM-DD."

/-- `buildDateQueryConditions` (wysylkiRepository.ts, lines 43-62). -/
def buildDateQueryConditions (ymd : Nat × Nat × Nat) (normalizedFileCode : String)
    (preferXml : Bool) : List String × List QueryParam :=
  let base : List String × List QueryParam :=
    (["CAST(r.DATAUTWORZENIA AS DATE) = ?"], [.date ymd.1 ymd.2.1 ymd.2.2])
  let withFile :=
    if 0 < normalizedFileCode.length then
      (base.1 ++ ["r.NAZWAPLIKU CONTAINING ?"], base.2 ++ [.str normalizedFileCode])
    else base
  if preferXml then
    (withFile.1 ++ ["UPPER(r.NAZWAPLIKU) LIKE ?"], withFile.2 ++ [.str "%.XML"])
  else withFile

/-- `normaliseLimit` (wysylkiRepository.ts, lines 64-78). -/
def normaliseLimit (rawLimit : Option Int) : Option Nat :=
  match rawLimit with
  | none => none
  | some candidate => if candidate ≤ 0 then none else some (min candidate 50).toNat

/-- Shallow embedding of `fetchWysylkiByMrn` (wysylkiRepository.ts,
lines 80-160) up to the store boundary: validation and query
preparation, then the store interaction events; everything past
`executeQuery` depends only on the store's rows. -/
def fetchWysylkiByMrn (mrn : String) (opts : FetchWysylkiOptions) :
    List StoreEvent × Except String PreparedQuery :=
  let normalizedMrn := jsTrim mrn
  if normalizedMrn.length = 0 then ([], .error "MRN value must be a non-empty string")
  else
    let preferXml := opts.preferXml
    let fallbackLimit : Int := if preferXml then 1 else 10
    let limitCandidate := opts.limit.getD fallbackLimit
    let limit := min (max limitCandidate 1) 50
    let normalizedFileCode := (opts.fileCode.map jsTrim).getD ""
    let bq := buildQueryConditions normalizedMrn normalizedFileCode preferXml
    ([.acquireLease, .startTransaction, .executeSql],
      .ok ⟨bq.1, bq.2, some limit.toNat⟩)

/-- Shallow embedding of `fetchWysylkiByCreationDate`
(wysylkiRepository.ts, lines 191-273) up to the store boundary. -/
def fetchWysylkiByCreationDate (rawDate : String) (opts : FetchWysylkiOptions) :
    List StoreEvent × Except String PreparedQuery :=
  let normalizedDate := jsTrim rawDate
  if normalizedDate.length = 0 then ([], .error "Date value must be a non-empty string")
  else if !isoDateShape normalizedDate then
    ([], .error "Date must be provided in the ISO format YYYY-MM-DD (e.g., 2025-01-03)")
  else
    match parseIsoDateOnly normalizedDate with
    | .error e => ([], .error e)
    | .ok ymd =>
      let preferXml := opts.preferXml
      let limit := normaliseLimit opts.limit
      let normalizedFileCode := (opts.fileCode.map jsTrim).getD ""
      let bq := buildDateQueryConditions ymd normalizedFileCode preferXml
      ([.acquireLease, .startTransaction, .executeSql], .ok ⟨bq.1, bq.2, limit⟩)

/-- C9: malformed or empty query inputs are rejected before any store
access: an MRN whose trimmed value is empty makes `fetchWysylkiByMrn`
throw with no pool lease acquired and no SQL executed (empty event
trace), and a date string not matching the YYYY-MM-DD shape, or naming
an invalid calendar date (one failing the `Date.UTC` round-trip), makes
`fetchWysylkiByCreationDate` throw with an empty event trace. -/
theorem C9_input_validation :
    (∀ (mrn : String) (opts : FetchWysylkiOptions), jsTrim mrn = "" →
      fetchWysylkiByMrn mrn opts = ([], .error "MRN value must be a non-empty string")) ∧
    (∀ (rawDate : String) (opts : FetchWysylkiOptions),
      isoDateShape (jsTrim rawDate) = false →
      (fetchWysylkiByCreationDate rawDate opts).1 = [] ∧
      ∃ e, (fetchWysylkiByCreationDate rawDate opts).2 = .error e) ∧
    (∀ (rawDate : String) (opts : FetchWysylkiOptions) (y m d : Nat),
      isoComponents (jsTrim rawDate) = some (y, m, d) →
      validUtcRoundTrip y m d = false →
      (fetchWysylkiByCreationDate rawDate opts).1 = [] ∧
      ∃ e, (fetchWysylkiByCreationDate rawDate opts).2 = .error e) := by
  refine ⟨?_, ?_, ?_⟩
  · intro mrn opts h
    simp [fetchWysylkiByMrn, h]
  · intro rawDate opts hshape
    by_cases hlen : (jsTrim rawDate).length = 0
    · refine ⟨?_, "Date value must be a non-empty string", ?_⟩ <;>
        simp [fetchWysylkiByCreationDate, hlen]
    · refine ⟨?_, "Date must be provided in the ISO format YYYY-MM-DD (e.g., 2025-01-03)", ?_⟩ <;>
        simp [fetchWysylkiByCreationDate, hlen, hshape]
  · intro rawDate opts y m d hcomp hvalid
    by_cases hlen : (jsTrim rawDate).length = 0
    · refine ⟨?_, "Date value must be a non-empty string", ?_⟩ <;>
        simp [fetchWysylkiByCreationDate, hlen]
    · by_cases hshape : isoDateShape (jsTrim rawDate) = true
      · have hparse : parseIsoDateOnly (jsTrim rawDate) =
            .error "Invalid calendar date. Please verify the provided value." := by
          simp [parseIsoDateOnly, hshape, hcomp, hvalid]
        refine ⟨?_, "Invalid calendar date. Please verify the provided value.", ?_⟩ <;>
          simp [fetchWysylkiByCreationDate, hlen, hshape, hparse]
      · have hshape' : isoDateShape (jsTrim rawDate) = false := by
          cases h : isoDateShape (jsTrim rawDate)
          · rfl
          · exact absurd h hshape
        refine ⟨?_,
          "Date must be provided in the ISO format YYYY-MM-DD (e.g., 2025-01-03)", ?_⟩ <;>
          simp [fetchWysylkiByCreationDate, hlen, hshape']

/-- The empty option record `{}`. -/
def defaultFetchOptions : FetchWysylkiOptions := ⟨none, none, false, none, none⟩

/-- Witness for C9: a whitespace MRN, a malformed date, and the invalid
calendar date 2025-02-30 are all rejected with no store events. -/
theorem C9_input_validation_witness :
    fetchWysylkiByMrn "   " defaultFetchOptions =
      ([], .error "MRN value must be a non-empty string") ∧
    (fetchWysylkiByCreationDate "2025-1-3" defaultFetchOptions).1 = [] ∧
    (fetchWysylkiByCreationDate "2025-02-30" defaultFetchOptions).1 = [] := by
  refine ⟨?_, ?_, ?_⟩
  · exact C9_input_validation.1 "   " defaultFetchOptions (by decide)
  · exact (C9_input_validation.2.1 "2025-1-3" defaultFetchOptions (by decide)).1
  · exact (C9_input_validation.2.2 "2025-02-30" defaultFetchOptions 2025 2 30
      (by decide) (by decide)).1
